import Mathlib

/-!
Polysat boolean variables (`src/math/polysat/boolean.cpp`)

A shallow embedding of `polysat::bool_var_manager`: the parallel per-variable and
per-literal tables, the variable pool (`new_var`, `del_var`), the assignment trail
(`propagate`, `decide`, `eval`, `asserted`, `assign`, `unassign`) and the properties
the specification states about them.

Every member function is a state transformer `M α`.  A run either returns (`Outcome.ok`)
or stops at a failed `SASSERT` / out-of-range table access (`Outcome.abort`); in both
cases the outcome carries the manager state at that point, so that "nothing was
changed by a failed call" is a statement about the embedding and not a convention.

Variable ids, literal indices and levels are `unsigned` in the source and natural
numbers here.  The only arithmetic on them is `2 * var` and `2 * var + 1` on table
indices; a z3 vector holds fewer than `2 ^ 32` entries, so for an index that is in range
this arithmetic does not wrap.  `LOG` and the `std::ostream` are diagnostics outside the
manager state and are left out.
-/

namespace polysat

/-- Modelled from the spec: the three-valued truth value `lbool` (declared in
`util/lbool.h`), with the three constants `boolean.cpp` uses. -/
inductive lbool where
  | l_false
  | l_undef
  | l_true
  deriving DecidableEq, Repr

/-- Modelled from the spec: the justification kind `bool_var_manager::kind_t` (declared
in `math/polysat/boolean.h`), the five kinds the specification lists; all five are
named in `boolean.cpp`. -/
inductive kind_t where
  | unassigned
  | bool_propagation
  | value_propagation
  | assumption
  | decision
  deriving DecidableEq, Repr

/-- Boolean variable identifier (`sat::bool_var`, an `unsigned`). -/
abbrev bool_var := Nat

/-- Modelled from the spec: `clause` (declared in `math/polysat/clause.h`) is an opaque
borrowed reference that is only stored and returned; a clause is identified by a number
and a `clause*` is an `Option clause`, `nullptr` being `none`. -/
abbrev clause := Nat

/-- Modelled from the spec: `dependency` (declared in `math/polysat/types.h`) is an
opaque nullable external identifier, "present(id) | absent". -/
abbrev dependency := Option Nat

/-- The absent dependency. -/
def null_dependency : dependency := none

/-- The sentinel level `UINT_MAX` of a 32-bit `unsigned`. -/
def UINT_MAX : Nat := 2 ^ 32 - 1

/-- Modelled from the spec: `sat::literal` (declared in `util/sat_literal.h`), a
(variable, polarity) pair in the paired-slot layout: `m_val = 2 * var + sign`, even
index = positive, odd index = negative. -/
structure literal where
  m_val : Nat
  deriving DecidableEq, Repr

/-- Modelled from the spec: constructor `sat::literal(v, sign)`, `(v << 1) + sign`;
`sat::literal(v)` is the positive literal `mk_lit v false`. -/
def literal.mk_lit (v : Nat) (sign : Bool) : literal :=
  ⟨(v <<< 1) + sign.toNat⟩

/-- Modelled from the spec: table index `lit.index()`. -/
def literal.index (l : literal) : Nat := l.m_val

/-- Modelled from the spec: variable `lit.var()`, `m_val >> 1`. -/
def literal.var (l : literal) : Nat := l.m_val >>> 1

/-- Modelled from the spec: negation `~lit`, `m_val ^ 1`, the adjacent slot. -/
def literal.neg (l : literal) : literal := ⟨l.m_val ^^^ 1⟩

/-- Modelled from the spec: the free-variable-order collaborator `m_free_vars` (a
`var_queue`, declared outside this file) as the log of the notifications it receives;
the constructors are the two callbacks `boolean.cpp` invokes. -/
inductive free_var_event where
  | del_var_eh (v : bool_var)
  | unassign_var_eh (v : bool_var)
  deriving DecidableEq, Repr

/-- The data members of `bool_var_manager` that `boolean.cpp` reads or writes. -/
structure bool_var_manager where
  /-- previously deleted variables that can be reused by `new_var` -/
  m_unused : List bool_var
  /-- current value, indexed by literal -/
  m_value : List lbool
  /-- level of assignment, indexed by variable -/
  m_level : List Nat
  /-- dependencies of external asserts, indexed by variable -/
  m_deps : List dependency
  /-- justification kind, indexed by variable -/
  m_kind : List kind_t
  /-- clause for propagation / lemma for decisions, indexed by variable -/
  m_clause : List (Option clause)
  /-- watch lists, indexed by literal -/
  m_watch : List (List clause)
  /-- activity, indexed by variable -/
  m_activity : List Nat
  /-- notifications sent to the free-variable order, oldest first -/
  m_free_vars : List free_var_event
  deriving DecidableEq, Repr

/-- The manager right after construction: all tables empty. -/
def bool_var_manager.empty : bool_var_manager :=
  ⟨[], [], [], [], [], [], [], [], []⟩

/-- Result of running a member function: it returned `a` in state `s`, or it stopped in
state `s` at a failed assertion or an out-of-range table access. -/
inductive Outcome (α : Type) where
  | ok (a : α) (s : bool_var_manager)
  | abort (s : bool_var_manager)
  deriving DecidableEq, Repr

/-- The manager state an outcome carries. -/
def Outcome.state {α : Type} (o : Outcome α) : bool_var_manager :=
  match o with
  | Outcome.ok _ s => s
  | Outcome.abort s => s

/-- State transformers over the manager. -/
def M (α : Type) : Type := bool_var_manager → Outcome α

instance : Monad M where
  pure a := fun s => Outcome.ok a s
  bind m f := fun s =>
    match m s with
    | Outcome.ok a s1 => f a s1
    | Outcome.abort s1 => Outcome.abort s1

/-- Modelled from the spec: `SASSERT` (a macro of `util/debug.h`) is a fatal assertion:
the run stops where the condition is false. -/
def SASSERT (c : Bool) : M Unit := fun s =>
  if c then Outcome.ok () s else Outcome.abort s

/-- Read through an accessor; an out-of-range index stops the run (`operator[]` of
`util/vector.h` asserts `idx < size()`). -/
def rd {α : Type} (f : bool_var_manager → Option α) : M α := fun s =>
  match f s with
  | some a => Outcome.ok a s
  | none => Outcome.abort s

/-- Checked `xs[i] = x`: `none` when `i` is out of range. -/
def vec_set {α : Type} (xs : List α) (i : Nat) (x : α) : Option (List α) :=
  if i < xs.length then some (xs.set i x) else none

/-- Write through a checked table update; an out-of-range index stops the run. -/
def wr (f : bool_var_manager → Option bool_var_manager) : M Unit := fun s =>
  match f s with
  | some s1 => Outcome.ok () s1
  | none => Outcome.abort s

namespace bool_var_manager

/-- Modelled from the spec: `size()` of `boolean.h`, the allocated size (the number of
rows of the per-variable tables). -/
def size (s : bool_var_manager) : Nat := s.m_level.length

/-- Modelled from the spec: accessor `value(lit)` of `boolean.h`, `m_value[lit.index()]`. -/
def value (s : bool_var_manager) (lit : literal) : Option lbool := s.m_value[lit.index]?

/-- Modelled from the spec: accessor `is_assigned(lit)` of `boolean.h`,
`value(lit) != l_undef`. -/
def is_assigned (s : bool_var_manager) (lit : literal) : Option Bool :=
  (s.value lit).map (fun x => x != lbool.l_undef)

/-- Modelled from the spec: accessor `level(var)`, `m_level[var]`. -/
def level (s : bool_var_manager) (v : Nat) : Option Nat := s.m_level[v]?

/-- Modelled from the spec: accessor `kind(var)`, `m_kind[var]`. -/
def kind (s : bool_var_manager) (v : Nat) : Option kind_t := s.m_kind[v]?

/-- Modelled from the spec: accessor `justifying_clause(var)`, `m_clause[var]`. -/
def justifying_clause (s : bool_var_manager) (v : Nat) : Option (Option clause) :=
  s.m_clause[v]?

/-- Modelled from the spec: accessor `dependency(var)`, `m_deps[var]`. -/
def dependency (s : bool_var_manager) (v : Nat) : Option polysat.dependency :=
  s.m_deps[v]?

/-- Modelled from the spec: accessor `watch(lit)`, `m_watch[lit.index()]`. -/
def watch (s : bool_var_manager) (lit : literal) : Option (List clause) :=
  s.m_watch[lit.index]?

/-- Activity of a variable, `m_activity[var]`. -/
def activity (s : bool_var_manager) (v : Nat) : Option Nat := s.m_activity[v]?

/-- Modelled from the spec: the kind tests of `boolean.h` used by the closing assertions
(`is_decision`, `is_bool_propagation`, `is_value_propagation`, `is_assumption`): the
variable of the literal is assigned (`value(literal(var)) != l_undef`) and carries
kind `k`. -/
def is_kind (k : kind_t) (s : bool_var_manager) (lit : literal) : Option Bool := do
  let a ← s.is_assigned (literal.mk_lit lit.var false)
  let k1 ← s.kind lit.var
  pure (a && k1 == k)

/-- `m_value[i] = x`. -/
def set_value (i : Nat) (x : lbool) : M Unit :=
  wr fun s => (vec_set s.m_value i x).map fun t => { s with m_value := t }

/-- `m_level[v] = x`. -/
def set_level (v : Nat) (x : Nat) : M Unit :=
  wr fun s => (vec_set s.m_level v x).map fun t => { s with m_level := t }

/-- `m_kind[v] = x`. -/
def set_kind (v : Nat) (x : kind_t) : M Unit :=
  wr fun s => (vec_set s.m_kind v x).map fun t => { s with m_kind := t }

/-- `m_clause[v] = x`. -/
def set_clause (v : Nat) (x : Option clause) : M Unit :=
  wr fun s => (vec_set s.m_clause v x).map fun t => { s with m_clause := t }

/-- `m_deps[v] = x`. -/
def set_deps (v : Nat) (x : polysat.dependency) : M Unit :=
  wr fun s => (vec_set s.m_deps v x).map fun t => { s with m_deps := t }

/-- `m_watch[i].reset()`. -/
def reset_watch (i : Nat) : M Unit :=
  wr fun s => (vec_set s.m_watch i []).map fun t => { s with m_watch := t }

/-- A callback of the free-variable order is invoked. -/
def notify (e : free_var_event) : M Unit := fun s =>
  Outcome.ok () { s with m_free_vars := s.m_free_vars ++ [e] }

/-- `bool_var_manager::new_var` (boolean.cpp:19). -/
def new_var : M bool_var := fun s =>
  if s.m_unused.isEmpty then
    let var := s.size
    Outcome.ok var
      { s with
        m_value := s.m_value ++ [lbool.l_undef] ++ [lbool.l_undef]
        m_level := s.m_level ++ [UINT_MAX]
        m_deps := s.m_deps ++ [null_dependency]
        m_kind := s.m_kind ++ [kind_t.unassigned]
        m_clause := s.m_clause ++ [none]
        m_watch := s.m_watch ++ [[]] ++ [[]]
        m_activity := s.m_activity ++ [0] }
  else
    (do
      let var ← rd fun s => s.m_unused.getLast?
      wr fun s => some { s with m_unused := s.m_unused.dropLast }
      SASSERT ((← rd fun s => s.m_level[var]?) == UINT_MAX)
      SASSERT ((← rd fun s => s.m_value[2 * var]?) == lbool.l_undef)
      SASSERT ((← rd fun s => s.m_value[2 * var + 1]?) == lbool.l_undef)
      SASSERT ((← rd fun s => s.m_kind[var]?) == kind_t.unassigned)
      SASSERT ((← rd fun s => s.m_clause[var]?) == none)
      SASSERT ((← rd fun s => s.m_deps[var]?) == null_dependency)
      pure var) s

/-- `bool_var_manager::del_var` (boolean.cpp:46).  The push onto `m_unused` is
commented out in the source and therefore absent here. -/
def del_var (var : Nat) : M Unit := do
  SASSERT ((← rd fun s => some (s.m_unused.count var)) == 0)
  let lit := literal.mk_lit var false
  set_value lit.index lbool.l_undef
  set_value lit.neg.index lbool.l_undef
  set_level var UINT_MAX
  set_kind var kind_t.unassigned
  set_clause var none
  set_deps var null_dependency
  reset_watch lit.index
  reset_watch lit.neg.index
  notify (free_var_event.del_var_eh var)

/-- `bool_var_manager::assign` (boolean.cpp:92). -/
def assign (k : kind_t) (lit : literal) (lvl : Nat) (reason : Option clause)
    (dep : polysat.dependency) : M Unit := do
  SASSERT (!(← rd fun s => s.is_assigned lit))
  SASSERT (k != kind_t.unassigned)
  set_value lit.index lbool.l_true
  set_value lit.neg.index lbool.l_false
  set_level lit.var lvl
  set_kind lit.var k
  set_clause lit.var reason
  set_deps lit.var dep
  notify (free_var_event.del_var_eh lit.var)

/-- `bool_var_manager::propagate` (boolean.cpp:62); `clause& reason` is never null. -/
def propagate (lit : literal) (lvl : Nat) (reason : clause) : M Unit := do
  assign kind_t.bool_propagation lit lvl (some reason) null_dependency
  SASSERT (← rd fun s => s.is_kind kind_t.bool_propagation lit)

/-- `bool_var_manager::decide(lit, lvl, lemma)` (boolean.cpp:68). -/
def decide_lemma (lit : literal) (lvl : Nat) (lem : clause) : M Unit := do
  assign kind_t.decision lit lvl (some lem) null_dependency
  SASSERT (← rd fun s => s.is_kind kind_t.decision lit)

/-- `bool_var_manager::decide(lit, lvl)` (boolean.cpp:74). -/
def decide (lit : literal) (lvl : Nat) : M Unit := do
  assign kind_t.decision lit lvl none null_dependency
  SASSERT (← rd fun s => s.is_kind kind_t.decision lit)

/-- `bool_var_manager::eval` (boolean.cpp:80). -/
def eval (lit : literal) (lvl : Nat) : M Unit := do
  assign kind_t.value_propagation lit lvl none null_dependency
  SASSERT (← rd fun s => s.is_kind kind_t.value_propagation lit)

/-- `bool_var_manager::asserted` (boolean.cpp:86). -/
def asserted (lit : literal) (lvl : Nat) (dep : polysat.dependency) : M Unit := do
  assign (if dep == null_dependency then kind_t.decision else kind_t.assumption)
    lit lvl none dep
  SASSERT ((← rd fun s => s.is_kind kind_t.decision lit)
    || (← rd fun s => s.is_kind kind_t.assumption lit))

/-- `bool_var_manager::unassign` (boolean.cpp:104). -/
def unassign (lit : literal) : M Unit := do
  SASSERT (← rd fun s => s.is_assigned lit)
  set_value lit.index lbool.l_undef
  set_value lit.neg.index lbool.l_undef
  set_level lit.var UINT_MAX
  set_kind lit.var kind_t.unassigned
  set_clause lit.var none
  set_deps lit.var null_dependency
  notify (free_var_event.unassign_var_eh lit.var)

/-- The state `assign` returns in: the six table writes and the notification. -/
def assigned (s : bool_var_manager) (k : kind_t) (lit : literal) (lvl : Nat)
    (reason : Option clause) (dep : polysat.dependency) : bool_var_manager :=
  { s with
    m_value := (s.m_value.set lit.index lbool.l_true).set lit.neg.index lbool.l_false
    m_level := s.m_level.set lit.var lvl
    m_kind := s.m_kind.set lit.var k
    m_clause := s.m_clause.set lit.var reason
    m_deps := s.m_deps.set lit.var dep
    m_free_vars := s.m_free_vars ++ [free_var_event.del_var_eh lit.var] }

/-- The state `unassign` returns in. -/
def unassigned (s : bool_var_manager) (lit : literal) : bool_var_manager :=
  { s with
    m_value := (s.m_value.set lit.index lbool.l_undef).set lit.neg.index lbool.l_undef
    m_level := s.m_level.set lit.var UINT_MAX
    m_kind := s.m_kind.set lit.var kind_t.unassigned
    m_clause := s.m_clause.set lit.var none
    m_deps := s.m_deps.set lit.var null_dependency
    m_free_vars := s.m_free_vars ++ [free_var_event.unassign_var_eh lit.var] }

/-- The state `del_var` returns in. -/
def deleted (s : bool_var_manager) (var : Nat) : bool_var_manager :=
  { s with
    m_value := (s.m_value.set (2 * var) lbool.l_undef).set (2 * var + 1) lbool.l_undef
    m_level := s.m_level.set var UINT_MAX
    m_kind := s.m_kind.set var kind_t.unassigned
    m_clause := s.m_clause.set var none
    m_deps := s.m_deps.set var null_dependency
    m_watch := (s.m_watch.set (2 * var) []).set (2 * var + 1) []
    m_free_vars := s.m_free_vars ++ [free_var_event.del_var_eh var] }

/-- The state the fresh branch of `new_var` returns in. -/
def extended (s : bool_var_manager) : bool_var_manager :=
  { s with
    m_value := s.m_value ++ [lbool.l_undef] ++ [lbool.l_undef]
    m_level := s.m_level ++ [UINT_MAX]
    m_deps := s.m_deps ++ [null_dependency]
    m_kind := s.m_kind ++ [kind_t.unassigned]
    m_clause := s.m_clause ++ [none]
    m_watch := s.m_watch ++ [[]] ++ [[]]
    m_activity := s.m_activity ++ [0] }

/-- Parallel-table shape: two literal slots and one row per allocated variable. -/
def WellShaped (s : bool_var_manager) : Prop :=
  s.m_value.length = 2 * s.size ∧ s.m_watch.length = 2 * s.size ∧
  s.m_deps.length = s.size ∧ s.m_kind.length = s.size ∧
  s.m_clause.length = s.size ∧ s.m_activity.length = s.size

instance (s : bool_var_manager) : Decidable (WellShaped s) := by
  unfold WellShaped; infer_instance

end bool_var_manager

/-- The five public entry points that record an assignment. -/
inductive Entry where
  | propagate (reason : clause)
  | decide_lemma (lem : clause)
  | decide
  | eval
  | asserted (dep : dependency)
  deriving DecidableEq, Repr

/-- Call an entry point on a literal and a level. -/
def Entry.call (e : Entry) (lit : literal) (lvl : Nat) : M Unit :=
  match e with
  | Entry.propagate c => bool_var_manager.propagate lit lvl c
  | Entry.decide_lemma c => bool_var_manager.decide_lemma lit lvl c
  | Entry.decide => bool_var_manager.decide lit lvl
  | Entry.eval => bool_var_manager.eval lit lvl
  | Entry.asserted dep => bool_var_manager.asserted lit lvl dep

/-- What an entry point hands to `assign`: kind, clause reference, dependency. -/
def Entry.args (e : Entry) : kind_t × Option clause × dependency :=
  match e with
  | Entry.propagate c => (kind_t.bool_propagation, some c, null_dependency)
  | Entry.decide_lemma c => (kind_t.decision, some c, null_dependency)
  | Entry.decide => (kind_t.decision, none, null_dependency)
  | Entry.eval => (kind_t.value_propagation, none, null_dependency)
  | Entry.asserted dep =>
    (if dep == null_dependency then kind_t.decision else kind_t.assumption, none, dep)

/-- A call of a public operation of the manager. -/
inductive Op where
  | new_var
  | del_var (var : bool_var)
  | assign (e : Entry) (lit : literal) (lvl : Nat)
  | unassign (lit : literal)
  deriving DecidableEq, Repr

/-- Run one public operation; `new_var` reports the id it returned. -/
def Op.exec (op : Op) : M (Option bool_var) :=
  match op with
  | Op.new_var => do
    let v ← bool_var_manager.new_var
    pure (some v)
  | Op.del_var var => do
    bool_var_manager.del_var var
    pure none
  | Op.assign e lit lvl => do
    e.call lit lvl
    pure none
  | Op.unassign lit => do
    bool_var_manager.unassign lit
    pure none

/-- Run a sequence of public operations, each one returning before the next starts;
the result is the list of ids returned by its `new_var` calls, in call order. -/
def exec_all (ops : List Op) : M (List bool_var) :=
  match ops with
  | [] => pure []
  | op :: rest => do
    let r ← op.exec
    let ids ← exec_all rest
    pure (r.toList ++ ids)

/-- State `s` is what the sequence `ops` of successful public operations leaves when
started on the empty manager. -/
def ReachableBy (ops : List Op) (s : bool_var_manager) : Prop :=
  ∃ ids, exec_all ops bool_var_manager.empty = Outcome.ok ids s

/-- States reachable from the empty manager by successful public operations. -/
def Reachable (s : bool_var_manager) : Prop := ∃ ops, ReachableBy ops s

/-- Scenario A of the specification: allocate id 0 and decide its positive literal at
level 1. -/
def scenario_A : List Op :=
  [Op.new_var, Op.assign Entry.decide (literal.mk_lit 0 false) 1]

/-- Scenario B of the specification: allocate ids 0 and 1 and propagate the negative
literal of 1 at level 2 by clause 7. -/
def scenario_B : List Op :=
  [Op.new_var, Op.new_var, Op.assign (Entry.propagate 7) (literal.mk_lit 1 true) 2]

/-- Scenario C of the specification: allocate ids 0, 1, 2, assert the positive literal
of 2 at level 0 with dependency 5, allocate id 3 and assert its positive literal at
level 0 without dependency. -/
def scenario_C : List Op :=
  [Op.new_var, Op.new_var, Op.new_var,
    Op.assign (Entry.asserted (some 5)) (literal.mk_lit 2 false) 0,
    Op.new_var, Op.assign (Entry.asserted none) (literal.mk_lit 3 false) 0]

/-- The state scenario A leaves. -/
def state_A : bool_var_manager := (exec_all scenario_A bool_var_manager.empty).state

/-- The state scenario B leaves. -/
def state_B : bool_var_manager := (exec_all scenario_B bool_var_manager.empty).state

/-- The state scenario C leaves. -/
def state_C : bool_var_manager := (exec_all scenario_C bool_var_manager.empty).state

/-- State B with clauses registered in the watch lists of both variables. -/
def state_W : bool_var_manager := { state_B with m_watch := [[7], [], [7, 8], [9]] }

/-- A run that deletes the first allocated id between two allocations. -/
def scenario_D : List Op := [Op.new_var, Op.del_var 0, Op.new_var]

/-- The level argument of the operation, if it has one, satisfies `P`. -/
def Op.level_sat (P : Nat → Prop) (op : Op) : Prop :=
  match op with
  | Op.assign _ _ lvl => P lvl
  | _ => True

namespace bool_var_manager

/-- The fresh-state property of variable `v` as the specification lists it: not
assigned, kind unassigned, level at the sentinel, both literal values undefined, no
clause, no dependency, both watch lists empty. -/
def fresh_state (s : bool_var_manager) (v : Nat) : Prop :=
  s.is_assigned (literal.mk_lit v false) = some false ∧
  s.kind v = some kind_t.unassigned ∧
  s.level v = some UINT_MAX ∧
  s.value (literal.mk_lit v false) = some lbool.l_undef ∧
  s.value (literal.mk_lit v true) = some lbool.l_undef ∧
  s.justifying_clause v = some none ∧
  s.dependency v = some null_dependency ∧
  s.watch (literal.mk_lit v false) = some [] ∧
  s.watch (literal.mk_lit v true) = some []

instance (s : bool_var_manager) (v : Nat) : Decidable (fresh_state s v) := by
  unfold fresh_state; infer_instance

/-- Invariant I2 in the specification's words: the four conditions "level is the
sentinel", "kind is unassigned", "both literal values are undefined" and "clause
reference and dependency are both absent" are equivalent to one another (the chain of
three equivalences is the same as all six). -/
def I2 (s : bool_var_manager) (v : Nat) : Prop :=
  (s.level v = some UINT_MAX ↔ s.kind v = some kind_t.unassigned) ∧
  (s.kind v = some kind_t.unassigned ↔
    (s.value (literal.mk_lit v false) = some lbool.l_undef ∧
     s.value (literal.mk_lit v true) = some lbool.l_undef)) ∧
  ((s.value (literal.mk_lit v false) = some lbool.l_undef ∧
     s.value (literal.mk_lit v true) = some lbool.l_undef) ↔
    (s.justifying_clause v = some none ∧ s.dependency v = some null_dependency))

instance (s : bool_var_manager) (v : Nat) : Decidable (I2 s v) := by
  unfold I2; infer_instance

/-- Everything the tables hold about variable `v`: its two literal values, level, kind,
clause reference, dependency, its two watch lists and its activity. -/
def row (s : bool_var_manager) (v : Nat) :
    Option lbool × Option lbool × Option Nat × Option kind_t × Option (Option clause) ×
      Option polysat.dependency × Option (List clause) × Option (List clause) × Option Nat :=
  (s.m_value[2 * v]?, s.m_value[2 * v + 1]?, s.m_level[v]?, s.m_kind[v]?, s.m_clause[v]?,
    s.m_deps[v]?, s.m_watch[2 * v]?, s.m_watch[2 * v + 1]?, s.m_activity[v]?)

/-- One row of the trail is either in the unassigned state or carries complementary
values and an assigned kind whose level satisfies `P`. -/
def RowOk (P : Nat → Prop) (s : bool_var_manager) (v : Nat) : Prop :=
  (s.m_value[2 * v]? = some lbool.l_undef ∧ s.m_value[2 * v + 1]? = some lbool.l_undef ∧
    s.m_kind[v]? = some kind_t.unassigned ∧ s.m_level[v]? = some UINT_MAX ∧
    s.m_clause[v]? = some none ∧ s.m_deps[v]? = some null_dependency) ∨
  (((s.m_value[2 * v]? = some lbool.l_true ∧ s.m_value[2 * v + 1]? = some lbool.l_false) ∨
    (s.m_value[2 * v]? = some lbool.l_false ∧ s.m_value[2 * v + 1]? = some lbool.l_true)) ∧
    ∃ k l c d, s.m_kind[v]? = some k ∧ s.m_level[v]? = some l ∧ s.m_clause[v]? = some c ∧
      s.m_deps[v]? = some d ∧ k ≠ kind_t.unassigned ∧ P l ∧
      (d ≠ null_dependency ↔ k = kind_t.assumption) ∧
      (k = kind_t.assumption → c = none) ∧
      (k = kind_t.bool_propagation → c ≠ none) ∧
      (k = kind_t.value_propagation → c = none))

/-- The invariant of the reachable states: the tables are parallel, the reuse pool is
empty and every row is well formed. -/
def Inv (P : Nat → Prop) (s : bool_var_manager) : Prop :=
  WellShaped s ∧ s.m_unused = [] ∧ ∀ v, v < s.size → RowOk P s v

/-- The state the reuse branch of `new_var` runs its assertions in: the last entry of
the reuse pool has been popped, every table is as before. -/
def popped (s : bool_var_manager) : bool_var_manager :=
  { s with m_unused := s.m_unused.dropLast }

/-- The six conditions the reuse branch of `new_var` asserts about the slot of `var`:
level `UINT_MAX`, both literal values undefined, kind unassigned, no clause, no
dependency. -/
def unassigned_slot (s : bool_var_manager) (var : Nat) : Prop :=
  s.m_level[var]? = some UINT_MAX ∧
  s.m_value[2 * var]? = some lbool.l_undef ∧
  s.m_value[2 * var + 1]? = some lbool.l_undef ∧
  s.m_kind[var]? = some kind_t.unassigned ∧
  s.m_clause[var]? = some none ∧
  s.m_deps[var]? = some null_dependency

instance (s : bool_var_manager) (var : Nat) : Decidable (unassigned_slot s var) := by
  unfold unassigned_slot; infer_instance

/-- Modelled from the spec: the `std::ostream` that `display` writes to, as the sequence
of items inserted into it: string constants and literals (how `operator<<` spells a
literal is defined outside `boolean.cpp`). -/
inductive out_item where
  | text (str : String)
  | lit (l : literal)
  deriving DecidableEq, Repr

/-- The iterations for `v, v + 1, ..., v + n - 1` of the loop of `display`; `out` is
what has been written so far.  The loop body never writes to the manager, so `size()`
is the same in every test of the loop condition and the loop started at 0 makes
exactly `size()` iterations. -/
def display_loop (v : Nat) (n : Nat) (out : List out_item) : M (List out_item) :=
  match n with
  | 0 => pure out
  | n + 1 => do
    let lit := literal.mk_lit v false
    let val ← rd fun s => s.value lit
    if val == lbool.l_true then
      display_loop (v + 1) n (out ++ [out_item.text " ", out_item.lit lit])
    else if val == lbool.l_false then
      display_loop (v + 1) n (out ++ [out_item.text " ", out_item.lit lit.neg])
    else
      display_loop (v + 1) n out

/-- `bool_var_manager::display` (boolean.cpp:115). -/
def display (out : List out_item) : M (List out_item) := do
  let sz ← rd fun s => some s.size
  display_loop 0 sz out

/-- The literal `display` writes for variable `v`, if it writes one. -/
def shown (s : bool_var_manager) (v : Nat) : Option literal :=
  match s.value (literal.mk_lit v false) with
  | some lbool.l_true => some (literal.mk_lit v false)
  | some lbool.l_false => some (literal.mk_lit v false).neg
  | _ => none

/-- A sequence of literals as `display` writes it: each one preceded by one space. -/
def written (lits : List literal) : List out_item :=
  lits.flatMap fun l => [out_item.text " ", out_item.lit l]

end bool_var_manager

/-- The notifications `op` sends to the free-variable order when it returns, read off
the source: `assign` and `del_var` call `del_var_eh`, `unassign` calls
`unassign_var_eh`, `new_var` calls nothing. -/
def sent (op : Op) : List free_var_event :=
  match op with
  | Op.new_var => []
  | Op.del_var var => [free_var_event.del_var_eh var]
  | Op.assign _ lit _ => [free_var_event.del_var_eh lit.var]
  | Op.unassign lit => [free_var_event.unassign_var_eh lit.var]

/-- The notifications the specification lists for operation `op` returning `r` from
state `s`, in the specification's words: "removed from candidate pool" on an assign and
on a `new_var` that reuses a freed id, "restored to candidate pool" on an unassign and
on a fresh `new_var`, "permanently removed" on a `del_var`.  The two removal messages
are read as the callback `del_var_eh`, the restoring one as `unassign_var_eh`. -/
def spec_notifications (s : bool_var_manager) (op : Op) (r : Option bool_var) :
    List free_var_event :=
  match op, r with
  | Op.new_var, some v =>
    if s.m_unused.isEmpty then [free_var_event.unassign_var_eh v]
    else [free_var_event.del_var_eh v]
  | Op.new_var, none => []
  | Op.del_var var, _ => [free_var_event.del_var_eh var]
  | Op.assign _ lit _, _ => [free_var_event.del_var_eh lit.var]
  | Op.unassign lit, _ => [free_var_event.unassign_var_eh lit.var]

/-- A state with one allocated, unassigned variable whose id is in the reuse pool. -/
def state_R : bool_var_manager := { bool_var_manager.empty.extended with m_unused := [0] }

/-- State B with the id of its assigned variable 1 in the reuse pool. -/
def state_Q : bool_var_manager := { state_B with m_unused := [1] }

/-- The lengths of the seven tables: values, watch lists, levels, kinds, clause
references, dependencies, activities. -/
def bool_var_manager.shape (s : bool_var_manager) : List Nat :=
  [s.m_value.length, s.m_watch.length, s.m_level.length, s.m_kind.length,
    s.m_clause.length, s.m_deps.length, s.m_activity.length]

/-- Every outcome of `m`, returning or stopping, carries a state related by `R` to the
state `m` was started in. -/
def Keeps {α : Type} (R : bool_var_manager → bool_var_manager → Prop) (m : M α) : Prop :=
  ∀ s, R s (m s).state

/-- The watch table of `s1` is that of `s`. -/
def same_watch (s s1 : bool_var_manager) : Prop := s1.m_watch = s.m_watch

/-- State `s1` has as many watch lists as `s`, and the same watch list for every literal
whose variable is not `v`. -/
def same_watch_except (v : Nat) (s s1 : bool_var_manager) : Prop :=
  s1.m_watch.length = s.m_watch.length ∧
  ∀ lit : literal, lit.var ≠ v → s1.watch lit = s.watch lit

end polysat

namespace polysat

open bool_var_manager

/-! ## Literal arithmetic -/

theorem xor_one_eq (n : Nat) : n ^^^ 1 = if n % 2 = 0 then n + 1 else n - 1 := by
  show Nat.bitwise bne n 1 = _
  unfold Nat.bitwise
  have h0 : Nat.bitwise bne (n / 2) 0 = n / 2 := by
    unfold Nat.bitwise
    simp
    omega
  rcases Nat.mod_two_eq_zero_or_one n with h | h
  · by_cases hn : n = 0
    · simp [hn]
    · simp [hn, h, h0]; omega
  · have hn : n ≠ 0 := by rintro rfl; simp at h
    simp [hn, h, h0]; omega

theorem literal.var_eq (l : literal) : l.var = l.m_val / 2 := by
  simp [literal.var, Nat.shiftRight_eq_div_pow]

theorem literal.index_mk_lit (v : Nat) (b : Bool) :
    (literal.mk_lit v b).index = 2 * v + b.toNat := by
  simp [literal.mk_lit, literal.index, Nat.shiftLeft_eq]; omega

theorem literal.var_mk_lit (v : Nat) (b : Bool) : (literal.mk_lit v b).var = v := by
  rw [literal.var_eq]
  have := literal.index_mk_lit v b
  simp only [literal.index] at this
  rw [this]
  cases b <;> simp only [Bool.toNat, cond] <;> omega

/-- The two slots of a literal's variable: the literal has one, its negation the other. -/
theorem literal.slots (l : literal) :
    (l.index = 2 * l.var ∧ l.neg.index = 2 * l.var + 1) ∨
    (l.index = 2 * l.var + 1 ∧ l.neg.index = 2 * l.var) := by
  simp only [literal.index, literal.neg, literal.var_eq, xor_one_eq]
  split <;> omega

theorem literal.neg_var (l : literal) : l.neg.var = l.var := by
  simp only [literal.neg, literal.var_eq, xor_one_eq]
  split <;> omega

theorem literal.neg_neg (l : literal) : l.neg.neg = l := by
  cases l with
  | mk n =>
    simp only [literal.neg, xor_one_eq, literal.mk.injEq]
    split <;> split <;> omega

/-! ## Running the member functions -/

theorem bind_apply {α β : Type} (m : M α) (f : α → M β) (s : bool_var_manager) :
    (m >>= f) s =
      match m s with
      | Outcome.ok a s1 => f a s1
      | Outcome.abort s1 => Outcome.abort s1 := rfl

theorem pure_apply {α : Type} (a : α) (s : bool_var_manager) :
    (pure a : M α) s = Outcome.ok a s := rfl

theorem literal.slot_bounds {s : bool_var_manager} (hs : WellShaped s) {lit : literal}
    (hv : lit.var < s.size) :
    lit.index < s.m_value.length ∧ lit.neg.index < s.m_value.length ∧
    lit.index < s.m_watch.length ∧ lit.neg.index < s.m_watch.length := by
  obtain ⟨h1, h2, -⟩ := hs
  rcases lit.slots with ⟨a, b⟩ | ⟨a, b⟩ <;> omega

/-- On an unassigned literal of an allocated variable `assign` returns, in the state
`assigned`. -/
theorem assign_ok {s : bool_var_manager} (hs : WellShaped s) {lit : literal}
    (hv : lit.var < s.size) (hu : s.value lit = some lbool.l_undef) {k : kind_t}
    (hk : k ≠ kind_t.unassigned) (lvl : Nat) (r : Option clause) (d : dependency) :
    assign k lit lvl r d s = Outcome.ok () (s.assigned k lit lvl r d) := by
  obtain ⟨b1, b2, -, -⟩ := literal.slot_bounds hs hv
  obtain ⟨h1, h2, h3, h4, h5, h6⟩ := hs
  simp only [size] at *
  simp [assign, bind_apply, SASSERT, rd, wr, set_value, set_level, set_kind, set_clause,
    set_deps, notify, vec_set, is_assigned, hu, hk, b1, b2, hv, h3, h4, h5, assigned]

theorem literal.index_ne_neg (l : literal) : l.index ≠ l.neg.index := by
  rcases l.slots with ⟨a, b⟩ | ⟨a, b⟩ <;> omega

/-- What the accessors return on the literal and the variable just assigned. -/
theorem assigned_reads {s : bool_var_manager} (hs : WellShaped s) {lit : literal}
    (hv : lit.var < s.size) (k : kind_t) (lvl : Nat) (r : Option clause) (d : dependency) :
    (s.assigned k lit lvl r d).value lit = some lbool.l_true ∧
    (s.assigned k lit lvl r d).value lit.neg = some lbool.l_false ∧
    (s.assigned k lit lvl r d).level lit.var = some lvl ∧
    (s.assigned k lit lvl r d).kind lit.var = some k ∧
    (s.assigned k lit lvl r d).justifying_clause lit.var = some r ∧
    (s.assigned k lit lvl r d).dependency lit.var = some d := by
  obtain ⟨b1, b2, -, -⟩ := literal.slot_bounds hs hv
  obtain ⟨h1, h2, h3, h4, h5, h6⟩ := hs
  have hne := lit.index_ne_neg
  simp only [size] at *
  simp [assigned, value, level, kind, justifying_clause, bool_var_manager.dependency,
    List.getElem?_set, b1, b2, hv, h3, h4, h5, hne, hne.symm]

/-- The positive literal of an assigned literal's variable is assigned. -/
theorem assigned_is_assigned_var {s : bool_var_manager} (hs : WellShaped s) {lit : literal}
    (hv : lit.var < s.size) (k : kind_t) (lvl : Nat) (r : Option clause) (d : dependency) :
    (s.assigned k lit lvl r d).is_assigned (literal.mk_lit lit.var false) = some true := by
  obtain ⟨h1, h2, -, -, -, -⟩ := assigned_reads hs hv k lvl r d
  have hi := literal.index_mk_lit lit.var false
  simp only [Bool.toNat, cond, Nat.add_zero] at hi
  simp only [is_assigned, value, hi] at *
  rcases lit.slots with ⟨a, b⟩ | ⟨a, b⟩
  · rw [← a, h1]; rfl
  · rw [← b, h2]; rfl

theorem assigned_is_kind {s : bool_var_manager} (hs : WellShaped s) {lit : literal}
    (hv : lit.var < s.size) (k k1 : kind_t) (lvl : Nat) (r : Option clause)
    (d : dependency) :
    (s.assigned k lit lvl r d).is_kind k1 lit = some (k == k1) := by
  have h1 := assigned_is_assigned_var hs hv k lvl r d
  obtain ⟨-, -, -, h2, -, -⟩ := assigned_reads hs hv k lvl r d
  simp [is_kind, h1, h2]

/-- On an unassigned literal of an allocated variable every entry point returns, in the
state `assigned` built from the arguments it hands to `assign`. -/
theorem Entry.call_ok {s : bool_var_manager} (hs : WellShaped s) {lit : literal}
    (hv : lit.var < s.size) (hu : s.value lit = some lbool.l_undef) (e : Entry)
    (lvl : Nat) :
    e.call lit lvl s =
      Outcome.ok () (s.assigned e.args.1 lit lvl e.args.2.1 e.args.2.2) := by
  cases e with
  | propagate c =>
    simp [Entry.call, Entry.args, bool_var_manager.propagate, bind_apply,
      assign_ok hs hv hu, rd, SASSERT, assigned_is_kind hs hv]
  | decide_lemma c =>
    simp [Entry.call, Entry.args, bool_var_manager.decide_lemma, bind_apply, assign_ok hs hv hu, rd, SASSERT,
      assigned_is_kind hs hv]
  | decide =>
    simp [Entry.call, Entry.args, bool_var_manager.decide, bind_apply, assign_ok hs hv hu,
      rd, SASSERT, assigned_is_kind hs hv]
  | eval =>
    simp [Entry.call, Entry.args, bool_var_manager.eval, bind_apply, assign_ok hs hv hu, rd, SASSERT,
      assigned_is_kind hs hv]
  | asserted dep =>
    have hk : (if dep == null_dependency then kind_t.decision else kind_t.assumption)
        ≠ kind_t.unassigned := by split <;> simp
    by_cases hd : dep = null_dependency
    · simp [Entry.call, Entry.args, bool_var_manager.asserted, bind_apply, assign_ok hs hv hu, rd, SASSERT,
        assigned_is_kind hs hv, hd]
    · simp [Entry.call, Entry.args, bool_var_manager.asserted, bind_apply, assign_ok hs hv hu, rd, SASSERT,
        assigned_is_kind hs hv, hd]

/-- On an assigned literal of an allocated variable `unassign` returns, in the state
`unassigned`. -/
theorem unassign_ok {s : bool_var_manager} (hs : WellShaped s) {lit : literal}
    (hv : lit.var < s.size) (ha : s.is_assigned lit = some true) :
    unassign lit s = Outcome.ok () (s.unassigned lit) := by
  obtain ⟨b1, b2, -, -⟩ := literal.slot_bounds hs hv
  obtain ⟨h1, h2, h3, h4, h5, h6⟩ := hs
  simp only [size] at *
  simp [unassign, bind_apply, SASSERT, rd, wr, set_value, set_level, set_kind, set_clause,
    set_deps, notify, vec_set, ha, b1, b2, hv, h3, h4, h5, unassigned]

/-- On an allocated variable that is not in the reuse pool `del_var` returns, in the
state `deleted`. -/
theorem del_var_ok {s : bool_var_manager} (hs : WellShaped s) {v : Nat}
    (hv : v < s.size) (hp : v ∉ s.m_unused) :
    del_var v s = Outcome.ok () (s.deleted v) := by
  have hv1 : (literal.mk_lit v false).var < s.size := by rw [literal.var_mk_lit]; exact hv
  obtain ⟨b1, b2, b3, b4⟩ := literal.slot_bounds hs hv1
  have hi := literal.index_mk_lit v false
  simp only [Bool.toNat, cond, Nat.add_zero] at hi
  have hn : (literal.mk_lit v false).neg.index = 2 * v + 1 := by
    have := (literal.mk_lit v false).slots
    rw [literal.var_mk_lit] at this
    omega
  rw [hi] at b1 b3
  rw [hn] at b2 b4
  obtain ⟨h1, h2, h3, h4, h5, h6⟩ := hs
  simp only [size] at *
  have hc : List.count v s.m_unused = 0 := List.count_eq_zero.mpr hp
  simp [del_var, bind_apply, SASSERT, rd, wr, set_value, set_level, set_kind, set_clause,
    set_deps, reset_watch, notify, vec_set, hi, hn, hc, b1, b2, b3, b4, hv, h3, h4, h5,
    deleted]

/-- With an empty reuse pool `new_var` returns the previous size, in the state
`extended`. -/
theorem new_var_fresh {s : bool_var_manager} (hp : s.m_unused = []) :
    new_var s = Outcome.ok s.size s.extended := by
  simp [new_var, hp, extended]

/-- An entry point stops at its first assertion, in the state it was called in, unless
the literal is in range and unassigned. -/
theorem Entry.call_abort {s : bool_var_manager} {lit : literal}
    (ha : s.is_assigned lit ≠ some false) (e : Entry) (lvl : Nat) :
    e.call lit lvl s = Outcome.abort s := by
  have h : ∀ k r d, assign k lit lvl r d s = Outcome.abort s := by
    intro k r d
    cases hx : s.is_assigned lit with
    | none => simp [assign, bind_apply, rd, hx]
    | some b =>
      cases b with
      | false => exact absurd hx ha
      | true => simp [assign, bind_apply, SASSERT, rd, hx]
  cases e <;>
    simp [Entry.call, bool_var_manager.propagate, bool_var_manager.decide_lemma,
      bool_var_manager.decide, bool_var_manager.eval, bool_var_manager.asserted,
      bind_apply, h]

/-- `unassign` stops at its assertion, in the state it was called in, unless the literal
is in range and assigned. -/
theorem unassign_abort {s : bool_var_manager} {lit : literal}
    (ha : s.is_assigned lit ≠ some true) : unassign lit s = Outcome.abort s := by
  cases hx : s.is_assigned lit with
  | none => simp [unassign, bind_apply, rd, hx]
  | some b =>
    cases b with
    | true => exact absurd hx ha
    | false => simp [unassign, bind_apply, SASSERT, rd, hx]

/-- `del_var` of a variable that is not allocated stops before any write. -/
theorem del_var_abort {s : bool_var_manager} (hs : WellShaped s) {v : Nat}
    (hv : ¬ v < s.size) : ∃ s1, del_var v s = Outcome.abort s1 := by
  have hi := literal.index_mk_lit v false
  simp only [Bool.toNat, cond, Nat.add_zero] at hi
  obtain ⟨h1, -⟩ := hs
  have hb : ¬ 2 * v < s.m_value.length := by omega
  by_cases hc : List.count v s.m_unused = 0
  · exact ⟨s, by simp [del_var, bind_apply, SASSERT, rd, wr, set_value, vec_set, hi, hc, hb]⟩
  · exact ⟨s, by simp [del_var, bind_apply, SASSERT, rd, hc]⟩

theorem is_assigned_eq_false_iff {s : bool_var_manager} {lit : literal} :
    s.is_assigned lit = some false ↔ s.value lit = some lbool.l_undef := by
  unfold is_assigned
  cases h : s.value lit with
  | none => simp
  | some x => cases x <;> simp

theorem value_isSome_iff {s : bool_var_manager} (hs : WellShaped s) {lit : literal} :
    lit.var < s.size ↔ ∃ x, s.value lit = some x := by
  obtain ⟨h1, -⟩ := hs
  have hiv : lit.index < s.m_value.length ↔ lit.var < s.size := by
    rcases lit.slots with ⟨a, b⟩ | ⟨a, b⟩ <;> omega
  rw [← hiv]
  unfold value
  constructor
  · intro h
    exact ⟨s.m_value[lit.index], List.getElem?_eq_getElem h⟩
  · rintro ⟨x, hx⟩
    by_contra hc
    rw [List.getElem?_eq_none (by omega)] at hx
    cases hx

/-- A returning entry point was called on an unassigned literal of an allocated
variable and returned in the state `assigned`. -/
theorem Entry.call_inv {s s1 : bool_var_manager} (hs : WellShaped s) {lit : literal}
    {e : Entry} {lvl : Nat} (h : e.call lit lvl s = Outcome.ok () s1) :
    lit.var < s.size ∧ s.value lit = some lbool.l_undef ∧
      s1 = s.assigned e.args.1 lit lvl e.args.2.1 e.args.2.2 := by
  by_cases ha : s.is_assigned lit = some false
  · have hu := is_assigned_eq_false_iff.mp ha
    have hv : lit.var < s.size := (value_isSome_iff hs).mpr ⟨_, hu⟩
    rw [Entry.call_ok hs hv hu] at h
    injection h with _ h2
    exact ⟨hv, hu, h2.symm⟩
  · rw [Entry.call_abort ha] at h
    cases h

/-- A returning `unassign` was called on an assigned literal of an allocated variable
and returned in the state `unassigned`. -/
theorem unassign_inv {s s1 : bool_var_manager} (hs : WellShaped s) {lit : literal}
    (h : unassign lit s = Outcome.ok () s1) :
    lit.var < s.size ∧ s.is_assigned lit = some true ∧ s1 = s.unassigned lit := by
  by_cases ha : s.is_assigned lit = some true
  · have hv : lit.var < s.size := by
      rw [value_isSome_iff hs]
      unfold is_assigned at ha
      cases hx : s.value lit with
      | none => rw [hx] at ha; cases ha
      | some x => exact ⟨x, rfl⟩
    rw [unassign_ok hs hv ha] at h
    injection h with _ h2
    exact ⟨hv, ha, h2.symm⟩
  · rw [unassign_abort ha] at h
    cases h

/-- A returning `del_var` was called on an allocated variable and returned in the state
`deleted`. -/
theorem del_var_inv {s s1 : bool_var_manager} (hs : WellShaped s) {v : Nat}
    (hp : v ∉ s.m_unused) (h : del_var v s = Outcome.ok () s1) :
    v < s.size ∧ s1 = s.deleted v := by
  by_cases hv : v < s.size
  · rw [del_var_ok hs hv hp] at h
    injection h with _ h2
    exact ⟨hv, h2.symm⟩
  · obtain ⟨s2, h2⟩ := del_var_abort hs hv
    rw [h2] at h
    cases h

/-! ## Rows: what an operation changes and what it leaves alone -/

theorem row_assigned_other (s : bool_var_manager) {lit : literal} {v : Nat}
    (hne : v ≠ lit.var) (k : kind_t) (lvl : Nat) (r : Option clause) (d : dependency) :
    (s.assigned k lit lvl r d).row v = s.row v := by
  have h1 : lit.index ≠ 2 * v ∧ lit.index ≠ 2 * v + 1 ∧ lit.neg.index ≠ 2 * v ∧
      lit.neg.index ≠ 2 * v + 1 := by
    rcases lit.slots with ⟨a, b⟩ | ⟨a, b⟩ <;> omega
  obtain ⟨a1, a2, a3, a4⟩ := h1
  simp [row, assigned, List.getElem?_set, a1, a2, a3, a4, Ne.symm hne]

theorem row_assigned_self {s : bool_var_manager} (hs : WellShaped s) {lit : literal}
    (hv : lit.var < s.size) (k : kind_t) (lvl : Nat) (r : Option clause) (d : dependency) :
    ∃ a b, (s.assigned k lit lvl r d).row lit.var =
        (some a, some b, some lvl, some k, some r, some d, s.m_watch[2 * lit.var]?,
          s.m_watch[2 * lit.var + 1]?, s.m_activity[lit.var]?) ∧
      ((a = lbool.l_true ∧ b = lbool.l_false) ∨ (a = lbool.l_false ∧ b = lbool.l_true)) := by
  obtain ⟨b1, b2, -, -⟩ := literal.slot_bounds hs hv
  obtain ⟨h1, h2, h3, h4, h5, h6⟩ := hs
  simp only [size] at *
  rcases lit.slots with ⟨a, b⟩ | ⟨a, b⟩
  · refine ⟨lbool.l_true, lbool.l_false, ?_, Or.inl ⟨rfl, rfl⟩⟩
    rw [a] at b1
    rw [b] at b2
    simp [row, assigned, List.getElem?_set, a, b, b1, b2, hv, h3, h4, h5]
  · refine ⟨lbool.l_false, lbool.l_true, ?_, Or.inr ⟨rfl, rfl⟩⟩
    rw [a] at b1
    rw [b] at b2
    simp [row, assigned, List.getElem?_set, a, b, b1, b2, hv, h3, h4, h5]

theorem row_unassigned_other (s : bool_var_manager) {lit : literal} {v : Nat}
    (hne : v ≠ lit.var) : (s.unassigned lit).row v = s.row v := by
  have h1 : lit.index ≠ 2 * v ∧ lit.index ≠ 2 * v + 1 ∧ lit.neg.index ≠ 2 * v ∧
      lit.neg.index ≠ 2 * v + 1 := by
    rcases lit.slots with ⟨a, b⟩ | ⟨a, b⟩ <;> omega
  obtain ⟨a1, a2, a3, a4⟩ := h1
  simp [row, unassigned, List.getElem?_set, a1, a2, a3, a4, Ne.symm hne]

theorem row_unassigned_self {s : bool_var_manager} (hs : WellShaped s) {lit : literal}
    (hv : lit.var < s.size) :
    (s.unassigned lit).row lit.var =
      (some lbool.l_undef, some lbool.l_undef, some UINT_MAX, some kind_t.unassigned,
        some none, some null_dependency, s.m_watch[2 * lit.var]?,
        s.m_watch[2 * lit.var + 1]?, s.m_activity[lit.var]?) := by
  obtain ⟨b1, b2, -, -⟩ := literal.slot_bounds hs hv
  obtain ⟨h1, h2, h3, h4, h5, h6⟩ := hs
  simp only [size] at *
  rcases lit.slots with ⟨a, b⟩ | ⟨a, b⟩ <;>
  · rw [a] at b1
    rw [b] at b2
    simp [row, unassigned, List.getElem?_set, a, b, b1, b2, hv, h3, h4, h5]

theorem row_deleted_other (s : bool_var_manager) {u v : Nat} (hne : v ≠ u) :
    (s.deleted u).row v = s.row v := by
  have a1 : 2 * u ≠ 2 * v := by omega
  have a2 : 2 * u ≠ 2 * v + 1 := by omega
  have a3 : 2 * u + 1 ≠ 2 * v := by omega
  have a4 : u ≠ v := Ne.symm hne
  simp [row, deleted, List.getElem?_set, a1, a2, a3, a4]

theorem row_deleted_self {s : bool_var_manager} (hs : WellShaped s) {v : Nat}
    (hv : v < s.size) :
    (s.deleted v).row v =
      (some lbool.l_undef, some lbool.l_undef, some UINT_MAX, some kind_t.unassigned,
        some none, some null_dependency, some [], some [], s.m_activity[v]?) := by
  obtain ⟨h1, h2, h3, h4, h5, h6⟩ := hs
  simp only [size] at *
  have b1 : 2 * v < s.m_value.length := by omega
  have b2 : 2 * v + 1 < s.m_value.length := by omega
  have b3 : 2 * v < s.m_watch.length := by omega
  have b4 : 2 * v + 1 < s.m_watch.length := by omega
  simp [row, deleted, List.getElem?_set, b1, b2, b3, b4, hv, h3, h4, h5]

theorem getElem?_push2_old {α : Type} (xs : List α) (a b : α) {i : Nat}
    (h : i < xs.length) : (xs ++ [a] ++ [b])[i]? = xs[i]? := by
  rw [List.getElem?_append_left (by simp; omega), List.getElem?_append_left h]

theorem getElem?_push2_fst {α : Type} (xs : List α) (a b : α) {i : Nat}
    (h : i = xs.length) : (xs ++ [a] ++ [b])[i]? = some a := by
  subst h
  rw [List.getElem?_append_left (by simp), List.getElem?_append_right (le_refl _)]
  simp

theorem getElem?_push2_snd {α : Type} (xs : List α) (a b : α) {i : Nat}
    (h : i = xs.length + 1) : (xs ++ [a] ++ [b])[i]? = some b := by
  subst h
  rw [List.getElem?_append_right (by simp)]
  simp

theorem getElem?_push_old {α : Type} (xs : List α) (a : α) {i : Nat}
    (h : i < xs.length) : (xs ++ [a])[i]? = xs[i]? :=
  List.getElem?_append_left h

theorem getElem?_push_new {α : Type} (xs : List α) (a : α) {i : Nat}
    (h : i = xs.length) : (xs ++ [a])[i]? = some a := by
  subst h
  rw [List.getElem?_append_right (le_refl _)]
  simp

theorem row_extended_old {s : bool_var_manager} (hs : WellShaped s) {v : Nat}
    (hv : v < s.size) : s.extended.row v = s.row v := by
  obtain ⟨h1, h2, h3, h4, h5, h6⟩ := hs
  simp only [size] at *
  simp only [row, extended]
  rw [getElem?_push2_old _ _ _ (by omega), getElem?_push2_old _ _ _ (by omega),
    getElem?_push2_old _ _ _ (by omega), getElem?_push2_old _ _ _ (by omega),
    getElem?_push_old _ _ hv, getElem?_push_old _ _ (by omega),
    getElem?_push_old _ _ (by omega), getElem?_push_old _ _ (by omega),
    getElem?_push_old _ _ (by omega)]

theorem row_extended_new {s : bool_var_manager} (hs : WellShaped s) :
    s.extended.row s.size =
      (some lbool.l_undef, some lbool.l_undef, some UINT_MAX, some kind_t.unassigned,
        some none, some null_dependency, some [], some [], some 0) := by
  obtain ⟨h1, h2, h3, h4, h5, h6⟩ := hs
  simp only [size] at *
  simp only [row, extended]
  rw [getElem?_push2_fst _ _ _ (by omega), getElem?_push2_snd _ _ _ (by omega),
    getElem?_push2_fst _ _ _ (by omega), getElem?_push2_snd _ _ _ (by omega),
    getElem?_push_new _ _ rfl, getElem?_push_new _ _ (by omega),
    getElem?_push_new _ _ (by omega), getElem?_push_new _ _ (by omega),
    getElem?_push_new _ _ (by omega)]

/-! ## The invariant of the reachable states -/

theorem wellShaped_assigned {s : bool_var_manager} (hs : WellShaped s) (k : kind_t)
    (lit : literal) (lvl : Nat) (r : Option clause) (d : dependency) :
    WellShaped (s.assigned k lit lvl r d) ∧ (s.assigned k lit lvl r d).size = s.size ∧
      (s.assigned k lit lvl r d).m_unused = s.m_unused := by
  simpa [WellShaped, assigned, size] using hs

theorem wellShaped_unassigned {s : bool_var_manager} (hs : WellShaped s) (lit : literal) :
    WellShaped (s.unassigned lit) ∧ (s.unassigned lit).size = s.size ∧
      (s.unassigned lit).m_unused = s.m_unused := by
  simpa [WellShaped, unassigned, size] using hs

theorem wellShaped_deleted {s : bool_var_manager} (hs : WellShaped s) (v : Nat) :
    WellShaped (s.deleted v) ∧ (s.deleted v).size = s.size ∧
      (s.deleted v).m_unused = s.m_unused := by
  simpa [WellShaped, deleted, size] using hs

theorem wellShaped_extended {s : bool_var_manager} (hs : WellShaped s) :
    WellShaped s.extended ∧ s.extended.size = s.size + 1 ∧
      s.extended.m_unused = s.m_unused := by
  obtain ⟨h1, h2, h3, h4, h5, h6⟩ := hs
  simp only [size] at *
  simp only [WellShaped, extended, size, List.length_append, List.length_singleton,
    List.length_cons, List.length_nil]
  exact ⟨by omega, trivial, trivial⟩

theorem rowOk_congr {P : Nat → Prop} {s s1 : bool_var_manager} {v : Nat}
    (h : s1.row v = s.row v) (hr : RowOk P s v) : RowOk P s1 v := by
  simp only [row, Prod.mk.injEq] at h
  obtain ⟨e1, e2, e3, e4, e5, e6, -⟩ := h
  unfold RowOk at *
  rw [e1, e2, e3, e4, e5, e6]
  exact hr

theorem rowOk_of_unassigned_row {P : Nat → Prop} {s : bool_var_manager} {v : Nat}
    {w1 w2 : Option (List clause)} {a : Option Nat}
    (h : s.row v = (some lbool.l_undef, some lbool.l_undef, some UINT_MAX,
      some kind_t.unassigned, some none, some null_dependency, w1, w2, a)) :
    RowOk P s v := by
  simp only [row, Prod.mk.injEq] at h
  obtain ⟨e1, e2, e3, e4, e5, e6, -⟩ := h
  exact Or.inl ⟨e1, e2, e4, e3, e5, e6⟩

/-- The arguments an entry point hands to `assign` are coherent: the kind is never
`unassigned`, a dependency goes with `assumption` only, and the clause reference is
present for `bool_propagation` and absent for `assumption` and `value_propagation`. -/
theorem Entry.args_coherent (e : Entry) :
    e.args.1 ≠ kind_t.unassigned ∧
    (e.args.2.2 ≠ null_dependency ↔ e.args.1 = kind_t.assumption) ∧
    (e.args.1 = kind_t.assumption → e.args.2.1 = none) ∧
    (e.args.1 = kind_t.bool_propagation → e.args.2.1 ≠ none) ∧
    (e.args.1 = kind_t.value_propagation → e.args.2.1 = none) := by
  cases e with
  | asserted dep =>
    by_cases hd : dep = null_dependency <;> simp [Entry.args, hd]
  | _ => simp [Entry.args]

theorem rowOk_assigned_self {P : Nat → Prop} {s : bool_var_manager} (hs : WellShaped s)
    {lit : literal} (hv : lit.var < s.size) (e : Entry) {lvl : Nat} (hl : P lvl) :
    RowOk P (s.assigned e.args.1 lit lvl e.args.2.1 e.args.2.2) lit.var := by
  obtain ⟨a, b, h, hab⟩ := row_assigned_self hs hv e.args.1 lvl e.args.2.1 e.args.2.2
  simp only [row, Prod.mk.injEq] at h
  obtain ⟨e1, e2, e3, e4, e5, e6, -⟩ := h
  obtain ⟨c1, c2, c3, c4, c5⟩ := e.args_coherent
  refine Or.inr ⟨?_, e.args.1, lvl, e.args.2.1, e.args.2.2, e4, e3, e5, e6, c1, hl, c2, c3,
    c4, c5⟩
  rw [e1, e2]
  rcases hab with ⟨rfl, rfl⟩ | ⟨rfl, rfl⟩
  · exact Or.inl ⟨rfl, rfl⟩
  · exact Or.inr ⟨rfl, rfl⟩

theorem bind_ok_inv {α β : Type} {m : M α} {f : α → M β} {s s1 : bool_var_manager} {b : β}
    (h : (m >>= f) s = Outcome.ok b s1) :
    ∃ a s2, m s = Outcome.ok a s2 ∧ f a s2 = Outcome.ok b s1 := by
  rw [bind_apply] at h
  cases hm : m s with
  | ok a s2 => rw [hm] at h; exact ⟨a, s2, rfl, h⟩
  | abort s2 => rw [hm] at h; cases h

theorem pure_ok_inv {α : Type} {a b : α} {s s1 : bool_var_manager}
    (h : (pure a : M α) s = Outcome.ok b s1) : b = a ∧ s1 = s := by
  rw [pure_apply] at h
  injection h with h1 h2
  exact ⟨h1.symm, h2.symm⟩

theorem inv_empty (P : Nat → Prop) : Inv P bool_var_manager.empty := by
  refine ⟨by decide, rfl, ?_⟩
  intro v hv
  simp [size, bool_var_manager.empty] at hv

/-- Every returning public operation keeps the invariant; `new_var` returns the
previous size and grows the size by one, the other operations keep the size. -/
theorem Op.exec_inv {P : Nat → Prop} {s s1 : bool_var_manager} {op : Op}
    {r : Option bool_var} (hI : Inv P s) (hl : op.level_sat P)
    (h : op.exec s = Outcome.ok r s1) :
    Inv P s1 ∧ ((r = none ∧ s1.size = s.size) ∨ (r = some s.size ∧ s1.size = s.size + 1)) := by
  obtain ⟨hs, hp, hrow⟩ := hI
  cases op with
  | new_var =>
    obtain ⟨a, s2, h1, h2⟩ := bind_ok_inv h
    obtain ⟨rfl, rfl⟩ := pure_ok_inv h2
    rw [new_var_fresh hp] at h1
    injection h1 with h3 h4
    subst h3 h4
    obtain ⟨w1, w2, w3⟩ := wellShaped_extended hs
    refine ⟨⟨w1, by rw [w3, hp], ?_⟩, Or.inr ⟨rfl, w2⟩⟩
    intro v hv
    rw [w2] at hv
    by_cases hlt : v < s.size
    · exact rowOk_congr (row_extended_old hs hlt) (hrow v hlt)
    · have : v = s.size := by omega
      subst this
      exact rowOk_of_unassigned_row (row_extended_new hs)
  | del_var u =>
    obtain ⟨a, s2, h1, h2⟩ := bind_ok_inv h
    obtain ⟨rfl, rfl⟩ := pure_ok_inv h2
    obtain ⟨hu, rfl⟩ := del_var_inv hs (by rw [hp]; simp) h1
    obtain ⟨w1, w2, w3⟩ := wellShaped_deleted hs u
    refine ⟨⟨w1, by rw [w3, hp], ?_⟩, Or.inl ⟨rfl, w2⟩⟩
    intro v hv
    rw [w2] at hv
    by_cases hne : v = u
    · subst hne
      exact rowOk_of_unassigned_row (row_deleted_self hs hv)
    · exact rowOk_congr (row_deleted_other s hne) (hrow v hv)
  | assign e lit lvl =>
    obtain ⟨a, s2, h1, h2⟩ := bind_ok_inv h
    obtain ⟨rfl, rfl⟩ := pure_ok_inv h2
    obtain ⟨hu, -, rfl⟩ := Entry.call_inv hs h1
    obtain ⟨w1, w2, w3⟩ := wellShaped_assigned hs e.args.1 lit lvl e.args.2.1 e.args.2.2
    refine ⟨⟨w1, by rw [w3, hp], ?_⟩, Or.inl ⟨rfl, w2⟩⟩
    intro v hv
    rw [w2] at hv
    by_cases hne : v = lit.var
    · subst hne
      exact rowOk_assigned_self hs hv e hl
    · exact rowOk_congr (row_assigned_other s hne _ _ _ _) (hrow v hv)
  | unassign lit =>
    obtain ⟨a, s2, h1, h2⟩ := bind_ok_inv h
    obtain ⟨rfl, rfl⟩ := pure_ok_inv h2
    obtain ⟨hu, -, rfl⟩ := unassign_inv hs h1
    obtain ⟨w1, w2, w3⟩ := wellShaped_unassigned hs lit
    refine ⟨⟨w1, by rw [w3, hp], ?_⟩, Or.inl ⟨rfl, w2⟩⟩
    intro v hv
    rw [w2] at hv
    by_cases hne : v = lit.var
    · subst hne
      exact rowOk_of_unassigned_row (row_unassigned_self hs hv)
    · exact rowOk_congr (row_unassigned_other s hne) (hrow v hv)

/-- A returning run keeps the invariant and returns, as the ids of its `new_var` calls,
exactly the sizes it passed through. -/
theorem exec_all_inv {P : Nat → Prop} (ops : List Op) :
    ∀ (s s1 : bool_var_manager) (ids : List bool_var), Inv P s →
      (∀ op, op ∈ ops → op.level_sat P) → exec_all ops s = Outcome.ok ids s1 →
      Inv P s1 ∧ s.size ≤ s1.size ∧ ids = List.range' s.size (s1.size - s.size) := by
  induction ops with
  | nil =>
    intro s s1 ids hI _ h
    obtain ⟨rfl, rfl⟩ := pure_ok_inv h
    exact ⟨hI, le_refl _, by simp⟩
  | cons op rest ih =>
    intro s s1 ids hI hl h
    obtain ⟨r, s2, h1, h2⟩ := bind_ok_inv h
    obtain ⟨ids2, s3, h3, h4⟩ := bind_ok_inv h2
    obtain ⟨rfl, rfl⟩ := pure_ok_inv h4
    obtain ⟨hI2, hr⟩ := Op.exec_inv hI (hl op (List.mem_cons_self _ _)) h1
    obtain ⟨hI3, hle, hids⟩ := ih s2 s1 ids2 hI2
      (fun o ho => hl o (List.mem_cons_of_mem _ ho)) h3
    refine ⟨hI3, ?_, ?_⟩
    · rcases hr with ⟨-, e⟩ | ⟨-, e⟩ <;> omega
    · rcases hr with ⟨rfl, e⟩ | ⟨rfl, e⟩
      · rw [hids, e]; rfl
      · rw [hids, e]
        have : s1.size - s.size = (s1.size - (s.size + 1)) + 1 := by omega
        rw [this, List.range'_succ]
        rfl

theorem Op.level_sat_true (op : Op) : op.level_sat (fun _ => True) := by
  cases op <;> exact trivial

/-- Every reachable state satisfies the invariant. -/
theorem reachable_inv {s : bool_var_manager} (h : Reachable s) : Inv (fun _ => True) s := by
  obtain ⟨ops, ids, h⟩ := h
  exact (exec_all_inv ops _ _ _ (inv_empty _) (fun o _ => o.level_sat_true) h).1

theorem reachableBy_reachable {ops : List Op} {s : bool_var_manager}
    (h : ReachableBy ops s) : Reachable s := ⟨ops, h⟩

/-! ## Accessors on the literals of a variable -/

theorem value_pos (s : bool_var_manager) (v : Nat) :
    s.value (literal.mk_lit v false) = s.m_value[2 * v]? := by
  simp [value, literal.index_mk_lit]

theorem value_neg (s : bool_var_manager) (v : Nat) :
    s.value (literal.mk_lit v true) = s.m_value[2 * v + 1]? := by
  simp [value, literal.index_mk_lit]

theorem watch_pos (s : bool_var_manager) (v : Nat) :
    s.watch (literal.mk_lit v false) = s.m_watch[2 * v]? := by
  simp [watch, literal.index_mk_lit]

theorem watch_neg (s : bool_var_manager) (v : Nat) :
    s.watch (literal.mk_lit v true) = s.m_watch[2 * v + 1]? := by
  simp [watch, literal.index_mk_lit]

theorem fresh_state_of_row {s : bool_var_manager} {v : Nat} {a : Option Nat}
    (h : s.row v = (some lbool.l_undef, some lbool.l_undef, some UINT_MAX,
      some kind_t.unassigned, some none, some null_dependency, some [], some [], a)) :
    fresh_state s v := by
  simp only [row, Prod.mk.injEq] at h
  obtain ⟨e1, e2, e3, e4, e5, e6, e7, e8, -⟩ := h
  refine ⟨?_, e4, e3, ?_, ?_, e5, e6, ?_, ?_⟩
  · rw [is_assigned_eq_false_iff, value_pos, e1]
  · rw [value_pos, e1]
  · rw [value_neg, e2]
  · rw [watch_pos, e7]
  · rw [watch_neg, e8]

/-! ## The assignment trail -/

/-- C1: on every well-shaped manager state and every literal of an allocated variable
that is not assigned, each of the five entry points (`propagate`, `decide` with a lemma,
`decide`, `eval`, `asserted`) returns, and afterwards `value(lit)` is true, `value(~lit)`
is false and the level of the literal's variable is the level passed in. -/
theorem C1_entry_points_assign (s : bool_var_manager) (hs : WellShaped s) (lit : literal)
    (hv : lit.var < s.size) (hu : s.is_assigned lit = some false) (lvl : Nat) (e : Entry) :
    ∃ s1, e.call lit lvl s = Outcome.ok () s1 ∧
      s1.value lit = some lbool.l_true ∧ s1.value lit.neg = some lbool.l_false ∧
      s1.level lit.var = some lvl := by
  have hu1 := is_assigned_eq_false_iff.mp hu
  obtain ⟨h1, h2, h3, -⟩ := assigned_reads hs hv e.args.1 lvl e.args.2.1 e.args.2.2
  exact ⟨_, Entry.call_ok hs hv hu1 e lvl, h1, h2, h3⟩

/-- C1 at the specification's scenario A: `new_var` on the empty manager returns id 0;
`decide(lit(0,+), 1)` then gives value true for the literal, false for its negation and
level 1 (and, by evaluation, kind `decision`). -/
theorem C1_entry_points_assign_witness :
    new_var bool_var_manager.empty = Outcome.ok 0 bool_var_manager.empty.extended ∧
    WellShaped bool_var_manager.empty.extended ∧
    (literal.mk_lit 0 false).var < bool_var_manager.empty.extended.size ∧
    bool_var_manager.empty.extended.is_assigned (literal.mk_lit 0 false) = some false ∧
    (∃ s1, Entry.decide.call (literal.mk_lit 0 false) 1 bool_var_manager.empty.extended
        = Outcome.ok () s1 ∧
      s1.value (literal.mk_lit 0 false) = some lbool.l_true ∧
      s1.value (literal.mk_lit 0 false).neg = some lbool.l_false ∧
      s1.level (literal.mk_lit 0 false).var = some 1) ∧
    (bool_var_manager.decide (literal.mk_lit 0 false) 1
      bool_var_manager.empty.extended).state.kind 0 = some kind_t.decision :=
  ⟨by decide, by decide, by decide, by decide,
    C1_entry_points_assign bool_var_manager.empty.extended (by decide)
      (literal.mk_lit 0 false) (by decide) (by decide) 1 Entry.decide,
    by decide⟩

/-- C2: assign round trip.  On a well-shaped state with an empty reuse pool, `new_var`
returns a variable `v`; for either polarity of `v`, every level and every entry point,
the entry point returns, `unassign` of the same literal returns, and afterwards `v` has
the fresh-state property again (not assigned, kind unassigned, level `UINT_MAX`, both
values undefined, no clause, no dependency, both watch lists empty); its whole row
is the one `new_var` created. -/
theorem C2_assign_unassign_round_trip (s : bool_var_manager) (hs : WellShaped s)
    (hp : s.m_unused = []) (sign : Bool) (lvl : Nat) (e : Entry) :
    ∃ v s1 s2 s3, new_var s = Outcome.ok v s1 ∧
      e.call (literal.mk_lit v sign) lvl s1 = Outcome.ok () s2 ∧
      unassign (literal.mk_lit v sign) s2 = Outcome.ok () s3 ∧
      fresh_state s3 v ∧ s3.row v = s1.row v := by
  obtain ⟨w1, w2, -⟩ := wellShaped_extended hs
  have hrow := row_extended_new hs
  have hvar : (literal.mk_lit s.size sign).var = s.size := literal.var_mk_lit _ _
  have hv : (literal.mk_lit s.size sign).var < s.extended.size := by rw [hvar, w2]; omega
  have hu : s.extended.value (literal.mk_lit s.size sign) = some lbool.l_undef := by
    have h := hrow
    simp only [row, Prod.mk.injEq] at h
    cases sign
    · rw [value_pos]; exact h.1
    · rw [value_neg]; exact h.2.1
  obtain ⟨x1, x2, -⟩ := wellShaped_assigned w1 e.args.1 (literal.mk_lit s.size sign) lvl
    e.args.2.1 e.args.2.2
  have hv2 : (literal.mk_lit s.size sign).var <
      (s.extended.assigned e.args.1 (literal.mk_lit s.size sign) lvl e.args.2.1
        e.args.2.2).size := by rw [x2]; exact hv
  have ha : (s.extended.assigned e.args.1 (literal.mk_lit s.size sign) lvl e.args.2.1
      e.args.2.2).is_assigned (literal.mk_lit s.size sign) = some true := by
    obtain ⟨r1, -⟩ := assigned_reads w1 hv e.args.1 lvl e.args.2.1 e.args.2.2
    simp [is_assigned, r1]
  have hfin := row_unassigned_self x1 hv2
  rw [hvar] at hfin
  have hw : ∀ i : Nat, (s.extended.assigned e.args.1 (literal.mk_lit s.size sign) lvl e.args.2.1
      e.args.2.2).m_watch[i]? = s.extended.m_watch[i]? := fun _ => rfl
  have hact : (s.extended.assigned e.args.1 (literal.mk_lit s.size sign) lvl e.args.2.1
      e.args.2.2).m_activity = s.extended.m_activity := rfl
  have h9 := hrow
  simp only [row, Prod.mk.injEq] at h9
  obtain ⟨-, -, -, -, -, -, e7, e8, e9⟩ := h9
  rw [hw, hw, hact, e7, e8, e9] at hfin
  exact ⟨s.size, s.extended, _, _, new_var_fresh hp, Entry.call_ok w1 hv hu e lvl,
    unassign_ok x1 hv2 ha, fresh_state_of_row hfin, by rw [hfin, hrow]⟩

/-- C2 at a concrete run: on the empty manager, `new_var` gives 0, `propagate` of the
negative literal of 0 at level 2 and `unassign` restore the fresh state of 0. -/
theorem C2_assign_unassign_round_trip_witness :
    WellShaped bool_var_manager.empty ∧ bool_var_manager.empty.m_unused = [] ∧
    ∃ v s1 s2 s3, new_var bool_var_manager.empty = Outcome.ok v s1 ∧
      (Entry.propagate 7).call (literal.mk_lit v true) 2 s1 = Outcome.ok () s2 ∧
      unassign (literal.mk_lit v true) s2 = Outcome.ok () s3 ∧
      fresh_state s3 v ∧ s3.row v = s1.row v :=
  ⟨by decide, rfl,
    C2_assign_unassign_round_trip bool_var_manager.empty (by decide) rfl true 2
      (Entry.propagate 7)⟩

/-- C3: kind and clause tagging.  On an unassigned literal of an allocated variable,
`propagate(lit, lvl, c)` leaves kind `bool_propagation` and clause `c`;
`decide(lit, lvl, lemma)` leaves kind `decision` and clause `lemma`; `decide(lit, lvl)`
leaves kind `decision` and no clause; `eval(lit, lvl)` leaves kind `value_propagation`
and no clause; in all four the dependency is null. -/
theorem C3_kind_clause_tagging (s : bool_var_manager) (hs : WellShaped s) (lit : literal)
    (hv : lit.var < s.size) (hu : s.is_assigned lit = some false) (lvl : Nat) (c : clause) :
    (∃ s1, propagate lit lvl c s = Outcome.ok () s1 ∧
      s1.kind lit.var = some kind_t.bool_propagation ∧
      s1.justifying_clause lit.var = some (some c) ∧
      s1.dependency lit.var = some null_dependency) ∧
    (∃ s1, decide_lemma lit lvl c s = Outcome.ok () s1 ∧
      s1.kind lit.var = some kind_t.decision ∧
      s1.justifying_clause lit.var = some (some c) ∧
      s1.dependency lit.var = some null_dependency) ∧
    (∃ s1, bool_var_manager.decide lit lvl s = Outcome.ok () s1 ∧
      s1.kind lit.var = some kind_t.decision ∧
      s1.justifying_clause lit.var = some none ∧
      s1.dependency lit.var = some null_dependency) ∧
    (∃ s1, eval lit lvl s = Outcome.ok () s1 ∧
      s1.kind lit.var = some kind_t.value_propagation ∧
      s1.justifying_clause lit.var = some none ∧
      s1.dependency lit.var = some null_dependency) := by
  have hu1 := is_assigned_eq_false_iff.mp hu
  have h := fun e => Entry.call_ok hs hv hu1 e lvl
  have hr := fun e : Entry => assigned_reads hs hv e.args.1 lvl e.args.2.1 e.args.2.2
  refine ⟨⟨_, h (Entry.propagate c), ?_⟩, ⟨_, h (Entry.decide_lemma c), ?_⟩,
    ⟨_, h Entry.decide, ?_⟩, ⟨_, h Entry.eval, ?_⟩⟩
  · exact ⟨(hr (Entry.propagate c)).2.2.2.1, (hr (Entry.propagate c)).2.2.2.2.1,
      (hr (Entry.propagate c)).2.2.2.2.2⟩
  · exact ⟨(hr (Entry.decide_lemma c)).2.2.2.1, (hr (Entry.decide_lemma c)).2.2.2.2.1,
      (hr (Entry.decide_lemma c)).2.2.2.2.2⟩
  · exact ⟨(hr Entry.decide).2.2.2.1, (hr Entry.decide).2.2.2.2.1,
      (hr Entry.decide).2.2.2.2.2⟩
  · exact ⟨(hr Entry.eval).2.2.2.1, (hr Entry.eval).2.2.2.2.1, (hr Entry.eval).2.2.2.2.2⟩

/-- C3 at the specification's scenario B: with ids 0 and 1 allocated,
`propagate(lit(1,-), 2, 7)` leaves kind `bool_propagation` and clause 7 on variable 1. -/
theorem C3_kind_clause_tagging_witness :
    WellShaped bool_var_manager.empty.extended.extended ∧
    (literal.mk_lit 1 true).var < bool_var_manager.empty.extended.extended.size ∧
    bool_var_manager.empty.extended.extended.is_assigned (literal.mk_lit 1 true)
      = some false ∧
    ∃ s1, propagate (literal.mk_lit 1 true) 2 7 bool_var_manager.empty.extended.extended
        = Outcome.ok () s1 ∧
      s1.kind (literal.mk_lit 1 true).var = some kind_t.bool_propagation ∧
      s1.justifying_clause (literal.mk_lit 1 true).var = some (some 7) ∧
      s1.dependency (literal.mk_lit 1 true).var = some null_dependency :=
  ⟨by decide, by decide, by decide,
    (C3_kind_clause_tagging bool_var_manager.empty.extended.extended (by decide)
      (literal.mk_lit 1 true) (by decide) (by decide) 2 7).1⟩

/-- C4: on an unassigned literal of an allocated variable, `asserted(lit, lvl, dep)`
returns and leaves kind `assumption` exactly when `dep` is not null and kind `decision`
otherwise; in both cases the dependency recorded is `dep` and there is no clause. -/
theorem C4_asserted_kind (s : bool_var_manager) (hs : WellShaped s) (lit : literal)
    (hv : lit.var < s.size) (hu : s.is_assigned lit = some false) (lvl : Nat)
    (dep : dependency) :
    ∃ s1, asserted lit lvl dep s = Outcome.ok () s1 ∧
      (s1.kind lit.var = some kind_t.assumption ↔ dep ≠ null_dependency) ∧
      (dep = null_dependency → s1.kind lit.var = some kind_t.decision) ∧
      s1.dependency lit.var = some dep ∧
      s1.justifying_clause lit.var = some none := by
  have hu1 := is_assigned_eq_false_iff.mp hu
  have h := Entry.call_ok hs hv hu1 (Entry.asserted dep) lvl
  obtain ⟨-, -, -, r4, r5, r6⟩ := assigned_reads hs hv (Entry.asserted dep).args.1 lvl
    (Entry.asserted dep).args.2.1 (Entry.asserted dep).args.2.2
  refine ⟨_, h, ?_, ?_, r6, r5⟩
  · rw [r4]
    by_cases hd : dep = null_dependency <;> simp [Entry.args, hd]
  · intro hd
    rw [r4]
    simp [Entry.args, hd]

/-- C4 at the specification's scenario C: with ids 0..2 allocated,
`asserted(lit(2,+), 0, D)` gives kind `assumption` and dependency `D`; with ids 0..3
allocated, `asserted(lit(3,+), 0, none)` gives kind `decision` and no dependency. -/
theorem C4_asserted_kind_witness :
    (WellShaped bool_var_manager.empty.extended.extended.extended ∧
      ∃ s1, asserted (literal.mk_lit 2 false) 0 (some 5)
          bool_var_manager.empty.extended.extended.extended = Outcome.ok () s1 ∧
        (s1.kind (literal.mk_lit 2 false).var = some kind_t.assumption ↔
          some 5 ≠ null_dependency) ∧
        (some 5 = null_dependency →
          s1.kind (literal.mk_lit 2 false).var = some kind_t.decision) ∧
        s1.dependency (literal.mk_lit 2 false).var = some (some 5) ∧
        s1.justifying_clause (literal.mk_lit 2 false).var = some none) ∧
    (asserted (literal.mk_lit 3 false) 0 none
      bool_var_manager.empty.extended.extended.extended.extended).state.kind 3
        = some kind_t.decision ∧
    (asserted (literal.mk_lit 3 false) 0 none
      bool_var_manager.empty.extended.extended.extended.extended).state.dependency 3
        = some none :=
  ⟨⟨by decide,
    C4_asserted_kind bool_var_manager.empty.extended.extended.extended (by decide)
      (literal.mk_lit 2 false) (by decide) (by decide) 0 (some 5)⟩,
    by decide, by decide⟩

/-- C5: invariant I1, polarity complementarity.  In every state reachable from the empty
manager by returning `new_var`, `del_var`, `propagate`, `decide`, `eval`, `asserted`
and `unassign` calls, for every literal of an allocated variable, `value(lit)` is true
exactly when `value(~lit)` is false, and the pair of values is (true, false),
(false, true) or (undefined, undefined): never both true, never both false, never
exactly one defined. -/
theorem C5_polarity_complementarity (s : bool_var_manager) (hr : Reachable s)
    (lit : literal) (hv : lit.var < s.size) :
    (s.value lit = some lbool.l_true ↔ s.value lit.neg = some lbool.l_false) ∧
    ((s.value lit = some lbool.l_true ∧ s.value lit.neg = some lbool.l_false) ∨
      (s.value lit = some lbool.l_false ∧ s.value lit.neg = some lbool.l_true) ∨
      (s.value lit = some lbool.l_undef ∧ s.value lit.neg = some lbool.l_undef)) := by
  obtain ⟨-, -, hrow⟩ := reachable_inv hr
  have h := hrow lit.var hv
  unfold RowOk at h
  simp only [value]
  rcases lit.slots with ⟨a, b⟩ | ⟨a, b⟩ <;> rw [a, b] <;>
    rcases h with ⟨h1, h2, -⟩ | ⟨⟨h1, h2⟩ | ⟨h1, h2⟩, -⟩ <;> simp [h1, h2]

/-- C5 at the state scenario B leaves: variable 1 carries (false, true) on its positive
and negative literal. -/
theorem C5_polarity_complementarity_witness :
    Reachable state_B ∧ (literal.mk_lit 1 false).var < state_B.size ∧
    state_B.value (literal.mk_lit 1 false) = some lbool.l_false ∧
    (state_B.value (literal.mk_lit 1 false) = some lbool.l_true ↔
      state_B.value (literal.mk_lit 1 false).neg = some lbool.l_false) :=
  ⟨⟨scenario_B, [0, 1], by decide!⟩, by decide!, by decide!,
    (C5_polarity_complementarity state_B ⟨scenario_B, [0, 1], by decide!⟩
      (literal.mk_lit 1 false) (by decide!)).1⟩

/-- C6 (as stated, refuted): after `new_var` and `decide(lit(0,+), 1)` variable 0 has
neither a clause reference nor a dependency although its kind is `decision`, its level
is 1 and its values are defined, so the four conditions of I2 are not equivalent. -/
theorem C6_I2_counterexample :
    Reachable state_A ∧ 0 < state_A.size ∧
    state_A.justifying_clause 0 = some none ∧
    state_A.dependency 0 = some null_dependency ∧
    state_A.kind 0 = some kind_t.decision ∧ state_A.level 0 = some 1 ∧
    state_A.value (literal.mk_lit 0 false) = some lbool.l_true ∧
    ¬ I2 state_A 0 :=
  ⟨⟨scenario_A, [0], by decide!⟩, by decide!, by decide!, by decide!, by decide!,
    by decide!, by decide!, by decide!⟩

/-- C6 (amended): in the state any returning sequence `ops` of public operations leaves,
for every allocated variable `v`, kind `unassigned` is equivalent to both literal
values being undefined; when that holds the level is `UINT_MAX` and clause reference
and dependency are both absent; and when no operation of `ops` was given the level
`UINT_MAX`, level `UINT_MAX` conversely implies kind `unassigned`. -/
theorem C6_I2_amended (ops : List Op) (s : bool_var_manager) (hr : ReachableBy ops s)
    (v : Nat) (hv : v < s.size) :
    (s.kind v = some kind_t.unassigned ↔
      (s.value (literal.mk_lit v false) = some lbool.l_undef ∧
       s.value (literal.mk_lit v true) = some lbool.l_undef)) ∧
    (s.kind v = some kind_t.unassigned →
      s.level v = some UINT_MAX ∧ s.justifying_clause v = some none ∧
      s.dependency v = some null_dependency) ∧
    ((∀ op, op ∈ ops → op.level_sat (fun l => l < UINT_MAX)) →
      s.level v = some UINT_MAX → s.kind v = some kind_t.unassigned) := by
  obtain ⟨ids, h⟩ := hr
  have hI := (exec_all_inv ops _ _ _ (inv_empty _) (fun o _ => o.level_sat_true) h).1
  have hrow := hI.2.2 v hv
  simp only [kind, level, justifying_clause, bool_var_manager.dependency, value_pos,
    value_neg]
  refine ⟨?_, ?_, ?_⟩
  · rcases hrow with ⟨h1, h2, h3, -⟩ | ⟨⟨h1, h2⟩ | ⟨h1, h2⟩, k, l, c, d, h3, -, -, -, h7, -⟩
    · simp [h1, h2, h3]
    · simp [h1, h3, h7]
    · simp [h1, h3, h7]
  · rcases hrow with ⟨-, -, -, h4, h5, h6⟩ | ⟨-, k, l, c, d, h3, -, -, -, h7, -⟩
    · intro _; exact ⟨h4, h5, h6⟩
    · intro hk
      rw [h3] at hk
      exact absurd (Option.some.inj hk) h7
  · intro hl
    have hJ := (exec_all_inv ops _ _ _ (inv_empty _) hl h).1
    rcases hJ.2.2 v hv with ⟨-, -, h3, -⟩ | ⟨-, k, l, c, d, -, h4, -, -, -, h8, -⟩
    · intro _; exact h3
    · intro hlv
      rw [h4] at hlv
      have := Option.some.inj hlv
      omega

/-- C6 (amended) at the state scenario A leaves: variable 0 is assigned at level 1. -/
theorem C6_I2_amended_witness :
    ReachableBy scenario_A state_A ∧ 0 < state_A.size ∧
    (∀ op, op ∈ scenario_A → op.level_sat (fun l => l < UINT_MAX)) ∧
    ¬ (state_A.kind 0 = some kind_t.unassigned) ∧
    ((state_A.kind 0 = some kind_t.unassigned ↔
      (state_A.value (literal.mk_lit 0 false) = some lbool.l_undef ∧
       state_A.value (literal.mk_lit 0 true) = some lbool.l_undef)) ∧
    (state_A.kind 0 = some kind_t.unassigned →
      state_A.level 0 = some UINT_MAX ∧ state_A.justifying_clause 0 = some none ∧
      state_A.dependency 0 = some null_dependency) ∧
    ((∀ op, op ∈ scenario_A → op.level_sat (fun l => l < UINT_MAX)) →
      state_A.level 0 = some UINT_MAX → state_A.kind 0 = some kind_t.unassigned)) :=
  ⟨⟨[0], by decide!⟩,
    by decide!,
    by
      intro op hop
      simp only [scenario_A, List.mem_cons, List.mem_singleton, List.not_mem_nil,
        or_false] at hop
      rcases hop with rfl | rfl
      · exact trivial
      · show 1 < UINT_MAX
        decide,
    by decide!,
    C6_I2_amended scenario_A state_A ⟨[0], by decide!⟩ 0 (by decide!)⟩

/-! ## The variable pool -/

/-- C7: fresh-state property.  On a well-shaped state with an empty reuse pool `new_var`
returns the previous `size()`, and in the state it returns in that variable is not
assigned, has kind `unassigned`, level `UINT_MAX`, both literal values undefined, no
clause reference, no dependency, two empty watch lists and activity 0. -/
theorem C7_new_var_fresh_state (s : bool_var_manager) (hs : WellShaped s)
    (hp : s.m_unused = []) :
    ∃ s1, new_var s = Outcome.ok s.size s1 ∧ fresh_state s1 s.size ∧
      s1.activity s.size = some 0 := by
  have hrow := row_extended_new hs
  refine ⟨s.extended, new_var_fresh hp, fresh_state_of_row hrow, ?_⟩
  simp only [row, Prod.mk.injEq] at hrow
  exact hrow.2.2.2.2.2.2.2.2

/-- C7 at the state scenario B leaves (two variables, variable 1 assigned): `new_var`
returns 2. -/
theorem C7_new_var_fresh_state_witness :
    WellShaped state_B ∧ state_B.m_unused = [] ∧ state_B.size = 2 ∧
    ∃ s1, new_var state_B = Outcome.ok state_B.size s1 ∧ fresh_state s1 state_B.size ∧
      s1.activity state_B.size = some 0 :=
  ⟨by decide!, by decide!, by decide!,
    C7_new_var_fresh_state state_B (by decide!) (by decide!)⟩

/-- C8: deletion resets (I5).  For every allocated variable `v` outside the reuse pool,
whatever its assignment and whatever its watch lists hold, `del_var(v)` returns and
leaves `v` with the fresh-state property: level `UINT_MAX`, kind `unassigned`, both
literal values undefined, no clause reference, no dependency, both watch lists empty. -/
theorem C8_del_var_resets (s : bool_var_manager) (hs : WellShaped s) (v : Nat)
    (hv : v < s.size) (hp : v ∉ s.m_unused) :
    ∃ s1, del_var v s = Outcome.ok () s1 ∧ fresh_state s1 v :=
  ⟨s.deleted v, del_var_ok hs hv hp, fresh_state_of_row (row_deleted_self hs hv)⟩

/-- C8 at a state where variable 1 is assigned by propagation and both of its watch
lists hold clauses. -/
theorem C8_del_var_resets_witness :
    WellShaped state_W ∧ 1 < state_W.size ∧ 1 ∉ state_W.m_unused ∧
    state_W.kind 1 = some kind_t.bool_propagation ∧
    state_W.watch (literal.mk_lit 1 false) = some [7, 8] ∧
    state_W.watch (literal.mk_lit 1 true) = some [9] ∧
    ∃ s1, del_var 1 state_W = Outcome.ok () s1 ∧ fresh_state s1 1 :=
  ⟨by decide!, by decide!, by decide!, by decide!, by decide!, by decide!,
    C8_del_var_resets state_W (by decide!) 1 (by decide!) (by decide!)⟩

/-- C9: no silent id reuse.  For every returning sequence of public operations started
on the empty manager, the ids returned by its `new_var` calls are pairwise distinct
(they are 0, 1, 2, ... in call order, whatever `del_var` calls lie between), the reuse
pool is empty in the state reached, and a further `new_var` returns the current
`size()` and increases it by one. -/
theorem C9_no_id_reuse (ops : List Op) (ids : List bool_var) (s : bool_var_manager)
    (h : exec_all ops bool_var_manager.empty = Outcome.ok ids s) :
    ids.Nodup ∧ ids = List.range s.size ∧ s.m_unused = [] ∧
    ∃ s1, new_var s = Outcome.ok s.size s1 ∧ s1.size = s.size + 1 := by
  obtain ⟨hI, -, hids⟩ :=
    exec_all_inv ops _ _ _ (inv_empty _) (fun o _ => o.level_sat_true) h
  have hr : ids = List.range s.size := by
    rw [hids, List.range_eq_range']
    rfl
  refine ⟨?_, hr, hI.2.1, s.extended, new_var_fresh hI.2.1, (wellShaped_extended hI.1).2.1⟩
  rw [hr]
  exact List.nodup_range _

/-- C9 at a run that deletes id 0 between two allocations: the ids are 0 and 1. -/
theorem C9_no_id_reuse_witness :
    exec_all scenario_D bool_var_manager.empty
      = Outcome.ok [0, 1] (exec_all scenario_D bool_var_manager.empty).state ∧
    ([0, 1] : List bool_var).Nodup ∧
    [0, 1] = List.range (exec_all scenario_D bool_var_manager.empty).state.size ∧
    (exec_all scenario_D bool_var_manager.empty).state.m_unused = [] ∧
    ∃ s1, new_var (exec_all scenario_D bool_var_manager.empty).state
        = Outcome.ok (exec_all scenario_D bool_var_manager.empty).state.size s1 ∧
      s1.size = (exec_all scenario_D bool_var_manager.empty).state.size + 1 :=
  ⟨by decide!, C9_no_id_reuse scenario_D [0, 1] _ (by decide!)⟩

/-- C10: double assignment.  For every literal that is assigned, each of the five entry
points stops at the entry assertion of `assign`, and the state it stops in is the state
it was called in: no value, level, kind, clause, dependency, watch list or notification
has changed.  The same holds in every reachable state when it is the negation of the
literal that has a defined value. -/
theorem C10_double_assignment_aborts (s : bool_var_manager) (lit : literal)
    (ha : s.is_assigned lit = some true ∨
      (Reachable s ∧ s.is_assigned lit.neg = some true))
    (lvl : Nat) (e : Entry) :
    e.call lit lvl s = Outcome.abort s := by
  apply Entry.call_abort
  rcases ha with ha | ⟨hr, ha⟩
  · rw [ha]; simp
  · obtain ⟨hs, -, hrow⟩ := reachable_inv hr
    have hv : lit.var < s.size := by
      rw [← lit.neg_var, value_isSome_iff hs]
      unfold is_assigned at ha
      cases hx : s.value lit.neg with
      | none => rw [hx] at ha; cases ha
      | some x => exact ⟨x, rfl⟩
    have h := hrow lit.var hv
    unfold RowOk at h
    simp only [is_assigned, value] at ha ⊢
    rcases lit.slots with ⟨a, b⟩ | ⟨a, b⟩ <;> rw [a] <;> rw [b] at ha <;>
      rcases h with ⟨h1, h2, -⟩ | ⟨⟨h1, h2⟩ | ⟨h1, h2⟩, -⟩ <;> simp [h1, h2] at ha ⊢

/-- C10 at the specification's scenario B: after `propagate(lit(1,-), 2, 7)` a second
`propagate` on the same literal stops and leaves the state as it was. -/
theorem C10_double_assignment_aborts_witness :
    Reachable state_B ∧ state_B.is_assigned (literal.mk_lit 1 true) = some true ∧
    state_B.is_assigned (literal.mk_lit 1 true).neg = some true ∧
    (Entry.propagate 7).call (literal.mk_lit 1 true) 2 state_B = Outcome.abort state_B :=
  ⟨⟨scenario_B, [0, 1], by decide!⟩, by decide!, by decide!,
    C10_double_assignment_aborts state_B (literal.mk_lit 1 true) (Or.inl (by decide!)) 2
      (Entry.propagate 7)⟩

/-! ## Preconditions of `unassign` and `del_var` -/

theorem is_assigned_eq_true_iff {s : bool_var_manager} {lit : literal} :
    s.is_assigned lit = some true ↔
      (s.value lit = some lbool.l_true ∨ s.value lit = some lbool.l_false) := by
  unfold is_assigned
  cases h : s.value lit with
  | none => simp
  | some x => cases x <;> simp

/-- `del_var` of a variable that is in the reuse pool stops at its entry assertion. -/
theorem del_var_abort_pool {s : bool_var_manager} {v : Nat} (hp : v ∈ s.m_unused) :
    del_var v s = Outcome.abort s := by
  have hc : ¬ List.count v s.m_unused = 0 := by
    rw [List.count_eq_zero]
    exact fun h => h hp
  simp [del_var, bind_apply, SASSERT, rd, hc]

/-- C11: on a well-shaped state `unassign(lit)` returns if and only if `value(lit)` is
defined (true or false); on a literal whose value is undefined it stops at its entry
assertion and the state it stops in is the state it was called in. -/
theorem C11_unassign_precondition (s : bool_var_manager) (hs : WellShaped s)
    (lit : literal) :
    ((∃ s1, unassign lit s = Outcome.ok () s1) ↔
      (s.value lit = some lbool.l_true ∨ s.value lit = some lbool.l_false)) ∧
    (s.value lit = some lbool.l_undef → unassign lit s = Outcome.abort s) := by
  refine ⟨⟨?_, ?_⟩, ?_⟩
  · rintro ⟨s1, h⟩
    exact is_assigned_eq_true_iff.mp (unassign_inv hs h).2.1
  · intro h
    have ha := is_assigned_eq_true_iff.mpr h
    have hv : lit.var < s.size := by
      rw [value_isSome_iff hs]
      rcases h with h | h <;> exact ⟨_, h⟩
    exact ⟨_, unassign_ok hs hv ha⟩
  · intro h
    apply unassign_abort
    rw [is_assigned_eq_false_iff.mpr h]
    simp

/-- C11 at the state scenario B leaves: the positive literal of variable 0 is undefined
and `unassign` stops on it; the negative literal of variable 1 is true and `unassign`
returns on it. -/
theorem C11_unassign_precondition_witness :
    WellShaped state_B ∧
    state_B.value (literal.mk_lit 0 false) = some lbool.l_undef ∧
    unassign (literal.mk_lit 0 false) state_B = Outcome.abort state_B ∧
    state_B.value (literal.mk_lit 1 true) = some lbool.l_true ∧
    (∃ s1, unassign (literal.mk_lit 1 true) state_B = Outcome.ok () s1) :=
  ⟨by decide!, by decide!,
    (C11_unassign_precondition state_B (by decide!) (literal.mk_lit 0 false)).2 (by decide!),
    by decide!,
    (C11_unassign_precondition state_B (by decide!) (literal.mk_lit 1 true)).1.mpr
      (Or.inl (by decide!))⟩

/-- C12 (as stated, refuted): in the state scenario B leaves, variable 1 is allocated
and assigned by propagation, and `del_var(1)` does not fail: it returns, and afterwards
variable 1 is unassigned. -/
theorem C12_del_var_assigned_counterexample :
    Reachable state_B ∧ 1 < state_B.size ∧
    state_B.is_assigned (literal.mk_lit 1 false) = some true ∧
    state_B.kind 1 = some kind_t.bool_propagation ∧
    del_var 1 state_B = Outcome.ok () (state_B.deleted 1) ∧
    (state_B.deleted 1).is_assigned (literal.mk_lit 1 false) = some false ∧
    (state_B.deleted 1).kind 1 = some kind_t.unassigned :=
  ⟨⟨scenario_B, [0, 1], by decide!⟩, by decide!, by decide!, by decide!, by decide!,
    by decide!, by decide!⟩

/-- C12 (amended): the only entry assertion of `del_var` is that the variable is not in
the reuse pool.  For an allocated variable that is currently assigned, `del_var`
returns exactly when the variable is not in the reuse pool, and then it leaves the
variable with the fresh-state property (trail state reset, watch lists empty); when
the variable is in the reuse pool it stops with the state unchanged. -/
theorem C12_del_var_assigned_amended (s : bool_var_manager) (hs : WellShaped s) (v : Nat)
    (hv : v < s.size) (ha : s.is_assigned (literal.mk_lit v false) = some true) :
    ((∃ s1, del_var v s = Outcome.ok () s1) ↔ v ∉ s.m_unused) ∧
    (v ∉ s.m_unused → ∃ s1, del_var v s = Outcome.ok () s1 ∧ fresh_state s1 v) ∧
    (v ∈ s.m_unused → del_var v s = Outcome.abort s) := by
  have _ := ha
  refine ⟨⟨?_, ?_⟩, ?_, ?_⟩
  · rintro ⟨s1, h⟩ hp
    rw [del_var_abort_pool hp] at h
    cases h
  · intro hp
    exact ⟨_, del_var_ok hs hv hp⟩
  · intro hp
    exact ⟨_, del_var_ok hs hv hp, fresh_state_of_row (row_deleted_self hs hv)⟩
  · exact del_var_abort_pool

/-- C12 (amended) at the state scenario B leaves, on the propagated variable 1. -/
theorem C12_del_var_assigned_amended_witness :
    WellShaped state_B ∧ 1 < state_B.size ∧
    state_B.is_assigned (literal.mk_lit 1 false) = some true ∧ 1 ∉ state_B.m_unused ∧
    ∃ s1, del_var 1 state_B = Outcome.ok () s1 ∧ fresh_state s1 1 :=
  ⟨by decide!, by decide!, by decide!, by decide!,
    (C12_del_var_assigned_amended state_B (by decide!) 1 (by decide!) (by decide!)).2.1
      (by decide!)⟩

/-! ## Every outcome of an operation on a well-shaped state -/

/-- One checked read followed by an assertion on what was read. -/
theorem check_step {α β : Type} [BEq α] [LawfulBEq α] [DecidableEq α]
    (f : bool_var_manager → Option α)
    (c : α) (rest : M β) (s : bool_var_manager) :
    (rd f >>= fun x => SASSERT (x == c) >>= fun _ => rest) s =
      if f s = some c then rest s else Outcome.abort s := by
  simp only [bind_apply, rd, SASSERT]
  cases h : f s with
  | none => simp
  | some x =>
    by_cases hx : x = c
    · simp [hx]
    · simp [hx]

/-- The reuse branch of `new_var`: the last pooled id is popped, then the six assertions
on its slot decide between returning it and stopping. -/
theorem new_var_reuse {s : bool_var_manager} {var : Nat}
    (hl : s.m_unused.getLast? = some var) :
    new_var s =
      if unassigned_slot s var then Outcome.ok var s.popped else Outcome.abort s.popped := by
  have hne : s.m_unused.isEmpty = false := by
    cases hu : s.m_unused with
    | nil => rw [hu] at hl; simp at hl
    | cons a l => rfl
  unfold new_var
  simp only [hne, Bool.false_eq_true, if_false]
  rw [bind_apply]
  simp only [rd, hl]
  rw [bind_apply]
  simp only [wr]
  change (rd (fun s => s.m_level[var]?) >>= fun x => SASSERT (x == UINT_MAX) >>= fun _ => _)
    s.popped = _
  rw [check_step, check_step, check_step, check_step, check_step, check_step, pure_apply]
  simp only [popped, unassigned_slot]
  split_ifs <;> first | rfl | (exfalso; simp_all)

/-- `del_var` of a variable that is not allocated stops with the state unchanged. -/
theorem del_var_abort_range {s : bool_var_manager} (hs : WellShaped s) {v : Nat}
    (hv : ¬ v < s.size) : del_var v s = Outcome.abort s := by
  by_cases hp : v ∈ s.m_unused
  · exact del_var_abort_pool hp
  · have hi := literal.index_mk_lit v false
    simp only [Bool.toNat, cond, Nat.add_zero] at hi
    obtain ⟨h1, -⟩ := hs
    have hb : ¬ 2 * v < s.m_value.length := by omega
    have hc : List.count v s.m_unused = 0 := List.count_eq_zero.mpr hp
    simp [del_var, bind_apply, SASSERT, rd, wr, set_value, vec_set, hi, hc, hb]

/-- On a well-shaped state an entry point either stops with the state unchanged or
returns in the state `assigned`. -/
theorem Entry.call_cases {s : bool_var_manager} (hs : WellShaped s) (e : Entry)
    (lit : literal) (lvl : Nat) :
    e.call lit lvl s = Outcome.abort s ∨
    (lit.var < s.size ∧ s.value lit = some lbool.l_undef ∧
      e.call lit lvl s =
        Outcome.ok () (s.assigned e.args.1 lit lvl e.args.2.1 e.args.2.2)) := by
  by_cases ha : s.is_assigned lit = some false
  · have hu := is_assigned_eq_false_iff.mp ha
    have hv : lit.var < s.size := (value_isSome_iff hs).mpr ⟨_, hu⟩
    exact Or.inr ⟨hv, hu, Entry.call_ok hs hv hu e lvl⟩
  · exact Or.inl (Entry.call_abort ha e lvl)

/-- On a well-shaped state `unassign` either stops with the state unchanged or returns
in the state `unassigned`. -/
theorem unassign_cases {s : bool_var_manager} (hs : WellShaped s) (lit : literal) :
    unassign lit s = Outcome.abort s ∨
    (lit.var < s.size ∧ s.is_assigned lit = some true ∧
      unassign lit s = Outcome.ok () (s.unassigned lit)) := by
  by_cases ha : s.is_assigned lit = some true
  · have hv : lit.var < s.size := by
      rw [value_isSome_iff hs]
      rcases is_assigned_eq_true_iff.mp ha with h | h <;> exact ⟨_, h⟩
    exact Or.inr ⟨hv, ha, unassign_ok hs hv ha⟩
  · exact Or.inl (unassign_abort ha)

/-- On a well-shaped state `del_var` either stops with the state unchanged or returns
in the state `deleted`. -/
theorem del_var_cases {s : bool_var_manager} (hs : WellShaped s) (v : Nat) :
    del_var v s = Outcome.abort s ∨
    (v < s.size ∧ v ∉ s.m_unused ∧ del_var v s = Outcome.ok () (s.deleted v)) := by
  by_cases hp : v ∈ s.m_unused
  · exact Or.inl (del_var_abort_pool hp)
  · by_cases hv : v < s.size
    · exact Or.inr ⟨hv, hp, del_var_ok hs hv hp⟩
    · exact Or.inl (del_var_abort_range hs hv)

/-- `new_var` either takes the fresh branch and returns in the state `extended`, or
takes the reuse branch and returns or stops in the state `popped`. -/
theorem new_var_cases (s : bool_var_manager) :
    (s.m_unused = [] ∧ new_var s = Outcome.ok s.size s.extended) ∨
    (∃ var, s.m_unused.getLast? = some var ∧
      ((unassigned_slot s var ∧ new_var s = Outcome.ok var s.popped) ∨
       (¬ unassigned_slot s var ∧ new_var s = Outcome.abort s.popped))) := by
  by_cases hp : s.m_unused = []
  · exact Or.inl ⟨hp, new_var_fresh hp⟩
  · right
    cases hl : s.m_unused.getLast? with
    | none => exact absurd (List.getLast?_eq_none_iff.mp hl) hp
    | some var =>
      refine ⟨var, rfl, ?_⟩
      rw [new_var_reuse hl]
      by_cases hu : unassigned_slot s var
      · exact Or.inl ⟨hu, if_pos hu⟩
      · exact Or.inr ⟨hu, if_neg hu⟩

/-! ## Diagnostics -/

theorem written_cons (l : literal) (lits : List literal) :
    written (l :: lits) = [out_item.text " ", out_item.lit l] ++ written lits := rfl

/-- The loop of `display` over in-range variables returns, leaves the state alone and
appends what `shown` gives for each variable in turn. -/
theorem display_loop_ok (s : bool_var_manager) (n : Nat) :
    ∀ (v : Nat) (out : List out_item), 2 * (v + n) ≤ s.m_value.length →
      display_loop v n out s =
        Outcome.ok (out ++ written ((List.range' v n).filterMap (shown s))) s := by
  induction n with
  | zero =>
    intro v out _
    simp [display_loop, pure_apply, written]
  | succ n ih =>
    intro v out hb
    have hi : 2 * v < s.m_value.length := by omega
    have hval : s.value (literal.mk_lit v false) = some (s.m_value[2 * v]) := by
      rw [value_pos]
      exact List.getElem?_eq_getElem hi
    rw [List.range'_succ, List.filterMap_cons]
    unfold display_loop
    rw [bind_apply]
    simp only [rd, hval]
    unfold shown
    rw [hval]
    cases hx : s.m_value[2 * v] with
    | l_true =>
      simp only [beq_self_eq_true, if_true]
      rw [ih (v + 1) _ (by omega), written_cons, List.append_assoc]
      rfl
    | l_false =>
      have h1 : (lbool.l_false == lbool.l_true) = false := by decide
      simp only [h1, beq_self_eq_true, if_true, Bool.false_eq_true, if_false]
      rw [ih (v + 1) _ (by omega), written_cons, List.append_assoc]
      rfl
    | l_undef =>
      have h1 : (lbool.l_undef == lbool.l_true) = false := by decide
      have h2 : (lbool.l_undef == lbool.l_false) = false := by decide
      simp only [h1, h2, Bool.false_eq_true, if_false]
      rw [ih (v + 1) _ (by omega)]
      rfl

theorem literal.eq_of_index {a b : literal} (h : a.index = b.index) : a = b := by
  cases a; cases b
  simp only [literal.index] at h
  rw [h]

theorem literal.index_pos (v : Nat) : (literal.mk_lit v false).index = 2 * v := by
  rw [literal.index_mk_lit]; rfl

theorem literal.index_neg_pos (v : Nat) : (literal.mk_lit v false).neg.index = 2 * v + 1 := by
  have h := (literal.mk_lit v false).slots
  rw [literal.var_mk_lit, literal.index_pos] at h
  omega

/-- What `shown` gives: the positive literal of a variable whose positive literal is
true, the negated literal of a variable whose positive literal is false. -/
theorem shown_eq_some_iff (s : bool_var_manager) (v : Nat) (l : literal) :
    shown s v = some l ↔
      ((l = literal.mk_lit v false ∧
          s.value (literal.mk_lit v false) = some lbool.l_true) ∨
       (l = (literal.mk_lit v false).neg ∧
          s.value (literal.mk_lit v false) = some lbool.l_false)) := by
  unfold shown
  cases h : s.value (literal.mk_lit v false) with
  | none => simp
  | some x =>
    cases x
    · simp [eq_comm]
    · simp
    · simp [eq_comm]

theorem shown_var {s : bool_var_manager} {v : Nat} {l : literal} (h : shown s v = some l) :
    l.var = v := by
  rcases (shown_eq_some_iff s v l).mp h with ⟨rfl, -⟩ | ⟨rfl, -⟩
  · exact literal.var_mk_lit v false
  · rw [literal.neg_var, literal.var_mk_lit]

theorem shown_isSome (s : bool_var_manager) (v : Nat) :
    (shown s v).isSome = decide (s.is_assigned (literal.mk_lit v false) = some true) := by
  unfold shown is_assigned
  cases h : s.value (literal.mk_lit v false) with
  | none => simp
  | some x => cases x <;> simp

theorem length_filterMap_eq_length_filter {α β : Type} (f : α → Option β) (p : α → Bool)
    (h : ∀ a, (f a).isSome = p a) (l : List α) :
    (l.filterMap f).length = (l.filter p).length := by
  induction l with
  | nil => rfl
  | cons a l ih =>
    rw [List.filterMap_cons, List.filter_cons]
    have ha := h a
    cases hf : f a with
    | none =>
      rw [hf] at ha
      simp only [Option.isSome_none] at ha
      simp [← ha, ih]
    | some b =>
      rw [hf] at ha
      simp only [Option.isSome_some] at ha
      simp [← ha, ih]

/-- C14: on a well-shaped state `display` returns and leaves the manager state as it
was.  What it appends to the stream is a sequence of literals, each preceded by one
space, in strictly increasing order of their variables; a literal is in the sequence
exactly when its variable `v` is below `size()` and it is the positive literal of `v`
with `value(lit(v))` true or the negated literal of `v` with `value(lit(v))` false, so
nothing is written for an unassigned variable; the length of the sequence is the
number of assigned variables; and in a reachable state the sequence holds exactly the
literals of allocated variables whose value is true. -/
theorem C14_display (s : bool_var_manager) (hs : WellShaped s) (out : List out_item) :
    ∃ lits : List literal,
      display out s = Outcome.ok (out ++ written lits) s ∧
      lits.Pairwise (fun a b => a.var < b.var) ∧
      (∀ l : literal, l ∈ lits ↔
        (l.var < s.size ∧
          ((l = literal.mk_lit l.var false ∧
              s.value (literal.mk_lit l.var false) = some lbool.l_true) ∨
           (l = (literal.mk_lit l.var false).neg ∧
              s.value (literal.mk_lit l.var false) = some lbool.l_false)))) ∧
      lits.length = ((List.range s.size).filter fun v =>
        decide (s.is_assigned (literal.mk_lit v false) = some true)).length ∧
      (Reachable s → ∀ l : literal, l ∈ lits ↔
        (l.var < s.size ∧ s.value l = some lbool.l_true)) := by
  have hmem : ∀ l : literal, l ∈ (List.range' 0 s.size).filterMap (shown s) ↔
      (l.var < s.size ∧
        ((l = literal.mk_lit l.var false ∧
            s.value (literal.mk_lit l.var false) = some lbool.l_true) ∨
         (l = (literal.mk_lit l.var false).neg ∧
            s.value (literal.mk_lit l.var false) = some lbool.l_false))) := by
    intro l
    rw [List.mem_filterMap]
    constructor
    · rintro ⟨v, hv, hl⟩
      have hvar := shown_var hl
      subst hvar
      rw [List.mem_range'_1] at hv
      exact ⟨by omega, (shown_eq_some_iff s _ l).mp hl⟩
    · rintro ⟨hv, hl⟩
      exact ⟨l.var, by rw [List.mem_range'_1]; omega, (shown_eq_some_iff s _ l).mpr hl⟩
  refine ⟨(List.range' 0 s.size).filterMap (shown s), ?_, ?_, hmem, ?_, ?_⟩
  · unfold display
    rw [bind_apply]
    simp only [rd]
    exact display_loop_ok s s.size 0 out (by have := hs.1; omega)
  · refine List.Pairwise.filterMap (shown s) ?_ (List.pairwise_lt_range' 0 s.size)
    intro a b hab l hl l1 hl1
    rw [shown_var hl, shown_var hl1]
    exact hab
  · rw [List.range_eq_range']
    exact length_filterMap_eq_length_filter _ _ (shown_isSome s) _
  · intro hr l
    rw [hmem]
    obtain ⟨-, -, hrow⟩ := reachable_inv hr
    constructor
    · rintro ⟨hv, ⟨hl, hval⟩ | ⟨hl, hval⟩⟩
      · refine ⟨hv, ?_⟩
        rw [hl]
        exact hval
      · refine ⟨hv, ?_⟩
        have h := hrow l.var hv
        unfold RowOk at h
        rw [value_pos] at hval
        have hi : l.index = 2 * l.var + 1 := by
          rw [congrArg literal.index hl]
          exact literal.index_neg_pos l.var
        simp only [value, hi]
        rcases h with ⟨h1, -⟩ | ⟨⟨h1, -⟩ | ⟨-, h2⟩, -⟩
        · rw [h1] at hval; cases hval
        · rw [h1] at hval; cases hval
        · exact h2
    · rintro ⟨hv, hval⟩
      refine ⟨hv, ?_⟩
      have h := hrow l.var hv
      unfold RowOk at h
      simp only [value] at hval
      rcases l.slots with ⟨a, -⟩ | ⟨a, -⟩
      · left
        have hl : l = literal.mk_lit l.var false :=
          literal.eq_of_index (by rw [literal.index_pos]; exact a)
        refine ⟨hl, ?_⟩
        rw [value_pos, ← a]
        exact hval
      · right
        have hl : l = (literal.mk_lit l.var false).neg :=
          literal.eq_of_index (by rw [literal.index_neg_pos]; exact a)
        refine ⟨hl, ?_⟩
        rw [value_pos]
        rw [a] at hval
        rcases h with ⟨-, h2, -⟩ | ⟨⟨h1, h2⟩ | ⟨h1, -⟩, -⟩
        · rw [h2] at hval; cases hval
        · rw [h2] at hval; cases hval
        · exact h1

/-- C14 at the state scenario B leaves (variable 0 unassigned, negative literal of
variable 1 true): `display` writes one space and the negative literal of variable 1. -/
theorem C14_display_witness :
    WellShaped state_B ∧
    display [] state_B
      = Outcome.ok [out_item.text " ", out_item.lit (literal.mk_lit 1 true)] state_B ∧
    ∃ lits : List literal,
      display [] state_B = Outcome.ok ([] ++ written lits) state_B ∧
      lits.Pairwise (fun a b => a.var < b.var) ∧
      (∀ l : literal, l ∈ lits ↔
        (l.var < state_B.size ∧
          ((l = literal.mk_lit l.var false ∧
              state_B.value (literal.mk_lit l.var false) = some lbool.l_true) ∨
           (l = (literal.mk_lit l.var false).neg ∧
              state_B.value (literal.mk_lit l.var false) = some lbool.l_false)))) ∧
      lits.length = ((List.range state_B.size).filter fun v =>
        decide (state_B.is_assigned (literal.mk_lit v false) = some true)).length ∧
      (Reachable state_B → ∀ l : literal, l ∈ lits ↔
        (l.var < state_B.size ∧ state_B.value l = some lbool.l_true)) :=
  ⟨by decide!, by decide!, C14_display state_B (by decide!) []⟩

/-! ## What no outcome of an operation changes -/

theorem Keeps.bind {α β : Type} {R : bool_var_manager → bool_var_manager → Prop}
    (ht : ∀ a b c, R a b → R b c → R a c) {m : M α} {f : α → M β}
    (hm : Keeps R m) (hf : ∀ a, Keeps R (f a)) : Keeps R (m >>= f) := by
  intro s
  rw [bind_apply]
  have h1 := hm s
  cases hms : m s with
  | ok a s1 => rw [hms] at h1; exact ht _ _ _ h1 (hf a s1)
  | abort s1 => rw [hms] at h1; exact h1

theorem Keeps.pure {α : Type} {R : bool_var_manager → bool_var_manager → Prop}
    (hr : ∀ a, R a a) (x : α) : Keeps R (pure x : M α) := fun s => hr s

theorem Keeps.SASSERT {R : bool_var_manager → bool_var_manager → Prop}
    (hr : ∀ a, R a a) (c : Bool) : Keeps R (polysat.SASSERT c) := by
  intro s
  unfold polysat.SASSERT
  split <;> exact hr s

theorem Keeps.rd {α : Type} {R : bool_var_manager → bool_var_manager → Prop}
    (hr : ∀ a, R a a) (f : bool_var_manager → Option α) : Keeps R (polysat.rd f) := by
  intro s
  unfold polysat.rd
  split <;> exact hr s

theorem Keeps.wr {R : bool_var_manager → bool_var_manager → Prop}
    (hr : ∀ a, R a a) (f : bool_var_manager → Option bool_var_manager)
    (h : ∀ s s1, f s = some s1 → R s s1) : Keeps R (polysat.wr f) := by
  intro s
  unfold polysat.wr
  split
  · exact h _ _ (by assumption)
  · exact hr s

theorem same_watch_refl (a : bool_var_manager) : same_watch a a := rfl
theorem same_watch_trans (a b c : bool_var_manager) (h1 : same_watch a b) (h2 : same_watch b c) :
    same_watch a c := by
  unfold same_watch at *
  rw [h2, h1]

theorem keeps_watch_assign (k : kind_t) (lit : literal) (lvl : Nat) (r : Option clause)
    (d : dependency) : Keeps same_watch (assign k lit lvl r d) := by
  unfold assign
  repeat' first
    | exact Keeps.SASSERT same_watch_refl _
    | exact Keeps.rd same_watch_refl _
    | exact Keeps.pure same_watch_refl _
    | (refine Keeps.wr same_watch_refl _ ?_
       intro s s1 h
       simp only [vec_set, Option.map_eq_some'] at h
       obtain ⟨t, -, rfl⟩ := h
       rfl)
    | (intro s; rfl)
    | refine Keeps.bind same_watch_trans ?_ ?_
    | intro _

theorem keeps_watch_unassign (lit : literal) : Keeps same_watch (unassign lit) := by
  unfold unassign
  repeat' first
    | exact Keeps.SASSERT same_watch_refl _
    | exact Keeps.rd same_watch_refl _
    | exact Keeps.pure same_watch_refl _
    | (refine Keeps.wr same_watch_refl _ ?_
       intro s s1 h
       simp only [vec_set, Option.map_eq_some'] at h
       obtain ⟨t, -, rfl⟩ := h
       rfl)
    | (intro s; rfl)
    | refine Keeps.bind same_watch_trans ?_ ?_
    | intro _

theorem keeps_watch_call (e : Entry) (lit : literal) (lvl : Nat) :
    Keeps same_watch (e.call lit lvl) := by
  cases e <;>
  · simp only [Entry.call, bool_var_manager.propagate, bool_var_manager.decide_lemma,
      bool_var_manager.decide, bool_var_manager.eval, bool_var_manager.asserted]
    repeat' first
      | exact keeps_watch_assign _ _ _ _ _
      | exact Keeps.SASSERT same_watch_refl _
      | exact Keeps.rd same_watch_refl _
      | refine Keeps.bind same_watch_trans ?_ ?_
      | intro _

theorem same_watch_except_refl (v : Nat) (a : bool_var_manager) : same_watch_except v a a :=
  ⟨rfl, fun _ _ => rfl⟩

theorem same_watch_except_trans (v : Nat) (a b c : bool_var_manager)
    (h1 : same_watch_except v a b) (h2 : same_watch_except v b c) :
    same_watch_except v a c :=
  ⟨h2.1.trans h1.1, fun lit hl => (h2.2 lit hl).trans (h1.2 lit hl)⟩

theorem same_watch_except_of_same {v : Nat} {s s1 : bool_var_manager}
    (h : s1.m_watch = s.m_watch) : same_watch_except v s s1 := by
  refine ⟨by rw [h], fun lit _ => ?_⟩
  simp only [watch, h]

theorem keeps_reset_watch (v : Nat) (l : literal) (hl : l.var = v) :
    Keeps (same_watch_except v) (reset_watch l.index) := by
  refine Keeps.wr (same_watch_except_refl v) _ ?_
  intro s s1 h
  simp only [vec_set, Option.map_eq_some'] at h
  obtain ⟨t, ht, rfl⟩ := h
  split at ht
  · injection ht with ht
    subst ht
    refine ⟨by simp, fun lit hne => ?_⟩
    have hi : l.index ≠ lit.index := by
      intro hc
      exact hne (by rw [← hl, literal.eq_of_index hc])
    simp [watch, List.getElem?_set, hi]
  · cases ht

theorem keeps_watch_del_var (v : Nat) : Keeps (same_watch_except v) (del_var v) := by
  unfold del_var
  repeat' first
    | exact Keeps.SASSERT (same_watch_except_refl v) _
    | exact Keeps.rd (same_watch_except_refl v) _
    | exact keeps_reset_watch v _ (literal.var_mk_lit v false)
    | exact keeps_reset_watch v _ (by rw [literal.neg_var, literal.var_mk_lit])
    | (refine Keeps.wr (same_watch_except_refl v) _ ?_
       intro s s1 h
       simp only [vec_set, Option.map_eq_some'] at h
       obtain ⟨t, -, rfl⟩ := h
       exact same_watch_except_of_same rfl)
    | (intro s; exact same_watch_except_of_same rfl)
    | refine Keeps.bind (same_watch_except_trans v) ?_ ?_
    | intro _

/-! ## Frame properties -/

/-- C13: watch lists are mutated only by deletion.  On every state, whether the call
returns or stops: `propagate`, `decide`, `eval`, `asserted` and `unassign` leave the
whole watch table as it was; `new_var` only appends to it, so every watch list that
existed is unchanged; `del_var(v)` keeps the number of watch lists and the watch list of
every literal whose variable is not `v`. -/
theorem C13_watch_lists_frame (s : bool_var_manager) :
    (∀ (e : Entry) (lit : literal) (lvl : Nat),
      (e.call lit lvl s).state.m_watch = s.m_watch) ∧
    (∀ lit : literal, (unassign lit s).state.m_watch = s.m_watch) ∧
    (∃ extra, (new_var s).state.m_watch = s.m_watch ++ extra) ∧
    (∀ v : Nat, (del_var v s).state.m_watch.length = s.m_watch.length ∧
      ∀ lit : literal, lit.var ≠ v → (del_var v s).state.watch lit = s.watch lit) := by
  refine ⟨?_, ?_, ?_, ?_⟩
  · intro e lit lvl
    exact keeps_watch_call e lit lvl s
  · intro lit
    exact keeps_watch_unassign lit s
  · rcases new_var_cases s with ⟨-, h⟩ | ⟨var, -, ⟨-, h⟩ | ⟨-, h⟩⟩
    · rw [h]
      exact ⟨[[], []], by simp [Outcome.state, extended]⟩
    · rw [h]
      exact ⟨[], by simp [Outcome.state, popped]⟩
    · rw [h]
      exact ⟨[], by simp [Outcome.state, popped]⟩
  · intro v
    exact keeps_watch_del_var v s

/-- C13 at a state whose watch lists hold clauses: assigning and unassigning leave the
watch table as it is, and `del_var(1)` leaves the watch lists of variable 0. -/
theorem C13_watch_lists_frame_witness :
    state_W.m_watch = [[7], [], [7, 8], [9]] ∧
    ((Entry.decide.call (literal.mk_lit 0 false) 3 state_W).state.m_watch
      = state_W.m_watch) ∧
    ((unassign (literal.mk_lit 1 true) state_W).state.m_watch = state_W.m_watch) ∧
    ((del_var 1 state_W).state.m_watch = [[7], [], [], []]) ∧
    ((del_var 1 state_W).state.watch (literal.mk_lit 0 false)
      = state_W.watch (literal.mk_lit 0 false)) :=
  ⟨by decide!,
    (C13_watch_lists_frame state_W).1 Entry.decide (literal.mk_lit 0 false) 3,
    (C13_watch_lists_frame state_W).2.1 (literal.mk_lit 1 true),
    by decide!,
    ((C13_watch_lists_frame state_W).2.2.2 1).2 (literal.mk_lit 0 false) (by decide!)⟩

/-! ## Notifications to the free-variable order -/

/-- C15 (as stated, refuted): a fresh `new_var` on the empty manager returns id 0 and
sends nothing, where the specification lists "restored to candidate pool" for 0; a
`new_var` that reuses the pooled id 0 returns 0 and sends nothing, where the
specification lists "removed from candidate pool" for 0. -/
theorem C15_notifications_counterexample :
    (new_var bool_var_manager.empty = Outcome.ok 0 bool_var_manager.empty.extended ∧
      bool_var_manager.empty.extended.m_free_vars = [] ∧
      spec_notifications bool_var_manager.empty Op.new_var (some 0)
        = [free_var_event.unassign_var_eh 0] ∧
      bool_var_manager.empty.extended.m_free_vars ≠
        bool_var_manager.empty.m_free_vars
          ++ spec_notifications bool_var_manager.empty Op.new_var (some 0)) ∧
    (new_var state_R = Outcome.ok 0 state_R.popped ∧
      state_R.popped.m_free_vars = [] ∧
      spec_notifications state_R Op.new_var (some 0) = [free_var_event.del_var_eh 0] ∧
      state_R.popped.m_free_vars ≠
        state_R.m_free_vars ++ spec_notifications state_R Op.new_var (some 0)) :=
  ⟨⟨by decide!, by decide!, by decide!, by decide!⟩,
    ⟨by decide!, by decide!, by decide!, by decide!⟩⟩

/-- C15 (amended): on a well-shaped state, a returning `propagate`, `decide`, `eval` or
`asserted` appends `del_var_eh` of the literal's variable to the notifications, a
returning `unassign` appends `unassign_var_eh` of the literal's variable, a returning
`del_var` appends `del_var_eh` of the variable (the same callback as an assignment), a
returning `new_var` appends nothing in either branch, and a call that stops appends
nothing: no other notifications are sent. -/
theorem C15_notifications_amended (s : bool_var_manager) (hs : WellShaped s) (op : Op) :
    (∀ r s1, op.exec s = Outcome.ok r s1 → s1.m_free_vars = s.m_free_vars ++ sent op) ∧
    (∀ s1, op.exec s = Outcome.abort s1 → s1.m_free_vars = s.m_free_vars) := by
  cases op with
  | new_var =>
    simp only [Op.exec, bind_apply, pure_apply, sent, List.append_nil]
    rcases new_var_cases s with ⟨-, h⟩ | ⟨var, -, ⟨-, h⟩ | ⟨-, h⟩⟩ <;> rw [h] <;>
      exact ⟨by rintro r s1 ⟨⟩; try rfl, by rintro s1 ⟨⟩; try rfl⟩
  | del_var v =>
    simp only [Op.exec, bind_apply, pure_apply, sent]
    rcases del_var_cases hs v with h | ⟨-, -, h⟩ <;> rw [h] <;>
      exact ⟨by rintro r s1 ⟨⟩; try rfl, by rintro s1 ⟨⟩; try rfl⟩
  | assign e lit lvl =>
    simp only [Op.exec, bind_apply, pure_apply, sent]
    rcases Entry.call_cases hs e lit lvl with h | ⟨-, -, h⟩ <;> rw [h] <;>
      exact ⟨by rintro r s1 ⟨⟩; try rfl, by rintro s1 ⟨⟩; try rfl⟩
  | unassign lit =>
    simp only [Op.exec, bind_apply, pure_apply, sent]
    rcases unassign_cases hs lit with h | ⟨-, -, h⟩ <;> rw [h] <;>
      exact ⟨by rintro r s1 ⟨⟩; try rfl, by rintro s1 ⟨⟩; try rfl⟩

/-- C15 (amended) at the state scenario B leaves: the log holds the `del_var_eh 1` of the
propagation; `unassign` of the same literal appends `unassign_var_eh 1`, and a further
`new_var` appends nothing. -/
theorem C15_notifications_amended_witness :
    WellShaped state_B ∧
    state_B.m_free_vars = [free_var_event.del_var_eh 1] ∧
    ((Op.unassign (literal.mk_lit 1 true)).exec state_B).state.m_free_vars
      = [free_var_event.del_var_eh 1, free_var_event.unassign_var_eh 1] ∧
    (Op.new_var.exec state_B).state.m_free_vars = [free_var_event.del_var_eh 1] ∧
    (∀ r s1, (Op.unassign (literal.mk_lit 1 true)).exec state_B = Outcome.ok r s1 →
      s1.m_free_vars = state_B.m_free_vars ++ sent (Op.unassign (literal.mk_lit 1 true))) :=
  ⟨by decide!, by decide!, by decide!, by decide!,
    (C15_notifications_amended state_B (by decide!) (Op.unassign (literal.mk_lit 1 true))).1⟩

/-- C16: the recycling path of `new_var`.  When the reuse pool is not empty and `var`
is its last entry: if the slot of `var` is in the unassigned state (level `UINT_MAX`,
both values undefined, kind unassigned, no clause, no dependency), `new_var` returns
`var`, removes exactly that last entry from the pool and leaves every table and the
notifications as they were; if the slot is not in the unassigned state, `new_var`
stops at an assertion. -/
theorem C16_new_var_recycles (s : bool_var_manager) (var : Nat)
    (hl : s.m_unused.getLast? = some var) :
    (unassigned_slot s var →
      ∃ s1, new_var s = Outcome.ok var s1 ∧ s.m_unused = s1.m_unused ++ [var] ∧
        s1.m_value = s.m_value ∧ s1.m_level = s.m_level ∧ s1.m_deps = s.m_deps ∧
        s1.m_kind = s.m_kind ∧ s1.m_clause = s.m_clause ∧ s1.m_watch = s.m_watch ∧
        s1.m_activity = s.m_activity ∧ s1.m_free_vars = s.m_free_vars) ∧
    (¬ unassigned_slot s var → ∃ s1, new_var s = Outcome.abort s1) := by
  rw [new_var_reuse hl]
  constructor
  · intro hu
    refine ⟨s.popped, if_pos hu, ?_, rfl, rfl, rfl, rfl, rfl, rfl, rfl, rfl⟩
    show s.m_unused = s.m_unused.dropLast ++ [var]
    exact (List.dropLast_append_getLast? var hl).symm
  · intro hu
    exact ⟨s.popped, if_neg hu⟩

/-- C16 at a state with the unassigned variable 0 in the pool, where `new_var` returns 0,
and at a state with the assigned variable 1 in the pool, where `new_var` stops. -/
theorem C16_new_var_recycles_witness :
    state_R.m_unused.getLast? = some 0 ∧ unassigned_slot state_R 0 ∧
    (∃ s1, new_var state_R = Outcome.ok 0 s1 ∧ state_R.m_unused = s1.m_unused ++ [0] ∧
      s1.m_value = state_R.m_value ∧ s1.m_level = state_R.m_level ∧
      s1.m_deps = state_R.m_deps ∧ s1.m_kind = state_R.m_kind ∧
      s1.m_clause = state_R.m_clause ∧ s1.m_watch = state_R.m_watch ∧
      s1.m_activity = state_R.m_activity ∧ s1.m_free_vars = state_R.m_free_vars) ∧
    state_Q.m_unused.getLast? = some 1 ∧ ¬ unassigned_slot state_Q 1 ∧
    (∃ s1, new_var state_Q = Outcome.abort s1) :=
  ⟨by decide!, by decide!, (C16_new_var_recycles state_R 0 (by decide!)).1 (by decide!),
    by decide!, by decide!, (C16_new_var_recycles state_Q 1 (by decide!)).2 (by decide!)⟩

/-! ## Table shape and locality -/

/-- C17: parallel-table shape and index safety.  In every reachable state the value
table and the watch table have `2 * size()` entries and the level, kind, clause,
dependency and activity tables have `size()` entries; `new_var` (which takes the fresh
branch there) grows the first two by 2 and the others by 1; no other operation changes
any length, whether it returns or stops; hence for every allocated variable `v` the
indices `2 * v`, `2 * v + 1` (and the slots of each of its literals) and `v` are in
range of the tables they index. -/
theorem C17_table_shape (s : bool_var_manager) (hr : Reachable s) :
    shape s = [2 * s.size, 2 * s.size, s.size, s.size, s.size, s.size, s.size] ∧
    (∃ s1, new_var s = Outcome.ok s.size s1 ∧
      shape s1 = [s.m_value.length + 2, s.m_watch.length + 2, s.m_level.length + 1,
        s.m_kind.length + 1, s.m_clause.length + 1, s.m_deps.length + 1,
        s.m_activity.length + 1]) ∧
    (∀ op : Op, op ≠ Op.new_var → shape (op.exec s).state = shape s) ∧
    (∀ v : Nat, v < s.size →
      2 * v < s.m_value.length ∧ 2 * v + 1 < s.m_value.length ∧
      2 * v < s.m_watch.length ∧ 2 * v + 1 < s.m_watch.length ∧
      v < s.m_level.length ∧ v < s.m_kind.length ∧ v < s.m_clause.length ∧
      v < s.m_deps.length ∧ v < s.m_activity.length) ∧
    (∀ lit : literal, lit.var < s.size →
      lit.index < s.m_value.length ∧ lit.neg.index < s.m_value.length ∧
      lit.index < s.m_watch.length ∧ lit.neg.index < s.m_watch.length) := by
  obtain ⟨hs, hp, -⟩ := reachable_inv hr
  have hs1 := hs
  obtain ⟨h1, h2, h3, h4, h5, h6⟩ := hs1
  refine ⟨?_, ?_, ?_, ?_, ?_⟩
  · simp only [shape, h1, h2, h3, h4, h5, h6]
    rfl
  · refine ⟨s.extended, new_var_fresh hp, ?_⟩
    simp [shape, extended]
  · intro op hop
    cases op with
    | new_var => exact absurd rfl hop
    | del_var v =>
      simp only [Op.exec, bind_apply, pure_apply]
      rcases del_var_cases hs v with h | ⟨-, -, h⟩ <;> rw [h]
      · rfl
      · simp [Outcome.state, shape, deleted]
    | assign e lit lvl =>
      simp only [Op.exec, bind_apply, pure_apply]
      rcases Entry.call_cases hs e lit lvl with h | ⟨-, -, h⟩ <;> rw [h]
      · rfl
      · simp [Outcome.state, shape, assigned]
    | unassign lit =>
      simp only [Op.exec, bind_apply, pure_apply]
      rcases unassign_cases hs lit with h | ⟨-, -, h⟩ <;> rw [h]
      · rfl
      · simp [Outcome.state, shape, unassigned]
  · intro v hv
    simp only [size] at *
    omega
  · intro lit hv
    exact literal.slot_bounds hs hv

/-- C17 at the state scenario B leaves: two variables, four value and watch slots. -/
theorem C17_table_shape_witness :
    Reachable state_B ∧ state_B.size = 2 ∧ shape state_B = [4, 4, 2, 2, 2, 2, 2] ∧
    shape (new_var state_B).state = [6, 6, 3, 3, 3, 3, 3] ∧
    shape state_B = [2 * state_B.size, 2 * state_B.size, state_B.size, state_B.size,
      state_B.size, state_B.size, state_B.size] :=
  ⟨⟨scenario_B, [0, 1], by decide!⟩, by decide!, by decide!, by decide!,
    (C17_table_shape state_B ⟨scenario_B, [0, 1], by decide!⟩).1⟩

/-- C18: per-variable locality.  On a well-shaped state, for every variable `w`: a
returning `propagate`, `decide`, `eval`, `asserted` or `unassign` on a literal of
another variable, and a returning `del_var` of another variable, leave the row of `w`
(both literal values, level, kind, clause reference, dependency, both watch lists and
activity) as it was; and a returning `new_var` leaves the row of every previously
allocated variable as it was. -/
theorem C18_locality (s : bool_var_manager) (hs : WellShaped s) (w : Nat) :
    (∀ (e : Entry) (lit : literal) (lvl : Nat) (s1 : bool_var_manager),
      e.call lit lvl s = Outcome.ok () s1 → w ≠ lit.var → s1.row w = s.row w) ∧
    (∀ (lit : literal) (s1 : bool_var_manager),
      unassign lit s = Outcome.ok () s1 → w ≠ lit.var → s1.row w = s.row w) ∧
    (∀ (v : Nat) (s1 : bool_var_manager),
      del_var v s = Outcome.ok () s1 → w ≠ v → s1.row w = s.row w) ∧
    (∀ (v : bool_var) (s1 : bool_var_manager),
      new_var s = Outcome.ok v s1 → w < s.size → s1.row w = s.row w) := by
  refine ⟨?_, ?_, ?_, ?_⟩
  · intro e lit lvl s1 h hne
    obtain ⟨-, -, rfl⟩ := Entry.call_inv hs h
    exact row_assigned_other s hne _ _ _ _
  · intro lit s1 h hne
    obtain ⟨-, -, rfl⟩ := unassign_inv hs h
    exact row_unassigned_other s hne
  · intro v s1 h hne
    rcases del_var_cases hs v with h1 | ⟨-, -, h1⟩
    · rw [h1] at h; cases h
    · rw [h1] at h
      injection h with _ h2
      subst h2
      exact row_deleted_other s hne
  · intro v s1 h hw
    rcases new_var_cases s with ⟨-, h1⟩ | ⟨var, -, ⟨-, h1⟩ | ⟨-, h1⟩⟩
    · rw [h1] at h
      injection h with _ h2
      subst h2
      exact row_extended_old hs hw
    · rw [h1] at h
      injection h with _ h2
      subst h2
      rfl
    · rw [h1] at h; cases h

/-- C18 at a state with clauses in the watch lists: deleting the propagated variable 1
leaves the row of variable 0, and deciding on variable 0 leaves the row of
variable 1. -/
theorem C18_locality_witness :
    WellShaped state_W ∧
    del_var 1 state_W = Outcome.ok () (state_W.deleted 1) ∧
    (state_W.deleted 1).row 0 = state_W.row 0 ∧
    state_W.kind 1 = some kind_t.bool_propagation ∧
    (∀ s1, Entry.decide.call (literal.mk_lit 0 false) 3 state_W = Outcome.ok () s1 →
      1 ≠ (literal.mk_lit 0 false).var → s1.row 1 = state_W.row 1) :=
  ⟨by decide!, by decide!,
    (C18_locality state_W (by decide!) 0).2.2.1 1 _ (by decide!) (by decide!),
    by decide!,
    (C18_locality state_W (by decide!) 1).1 Entry.decide (literal.mk_lit 0 false) 3⟩

/-! ## Invariants of the reachable states -/

/-- C19: canonical unassigned state.  In every state reachable from the empty manager by
returning public operations, for every allocated variable, the kind is `unassigned`
if and only if both literal values are undefined, and whenever that holds the level is
`UINT_MAX`, the clause reference is null and the dependency is null. -/
theorem C19_canonical_unassigned (s : bool_var_manager) (hr : Reachable s) (v : Nat)
    (hv : v < s.size) :
    (s.kind v = some kind_t.unassigned ↔
      (s.value (literal.mk_lit v false) = some lbool.l_undef ∧
       s.value (literal.mk_lit v true) = some lbool.l_undef)) ∧
    (s.kind v = some kind_t.unassigned →
      s.level v = some UINT_MAX ∧ s.justifying_clause v = some none ∧
      s.dependency v = some null_dependency) := by
  obtain ⟨-, -, hrow⟩ := reachable_inv hr
  simp only [kind, level, justifying_clause, bool_var_manager.dependency, value_pos,
    value_neg]
  rcases hrow v hv with ⟨h1, h2, h3, h4, h5, h6⟩ |
    ⟨⟨h1, h2⟩ | ⟨h1, h2⟩, k, l, c, d, h3, -, -, -, h7, -⟩
  · simp [h1, h2, h3, h4, h5, h6]
  · simp [h1, h3, h7]
  · simp [h1, h3, h7]

/-- C19 at the state scenario B leaves: variable 0 is in the unassigned state. -/
theorem C19_canonical_unassigned_witness :
    Reachable state_B ∧ 0 < state_B.size ∧
    state_B.kind 0 = some kind_t.unassigned ∧
    (state_B.kind 0 = some kind_t.unassigned →
      state_B.level 0 = some UINT_MAX ∧ state_B.justifying_clause 0 = some none ∧
      state_B.dependency 0 = some null_dependency) :=
  ⟨⟨scenario_B, [0, 1], by decide!⟩, by decide!, by decide!,
    (C19_canonical_unassigned state_B ⟨scenario_B, [0, 1], by decide!⟩ 0 (by decide!)).2⟩

/-- C20: dependency and kind coherence.  In every state reachable from the empty manager
by returning public operations, for every allocated variable, the dependency is
non-null if and only if the kind is `assumption`, and a variable of kind `assumption`
has no justifying clause reference. -/
theorem C20_dependency_kind (s : bool_var_manager) (hr : Reachable s) (v : Nat)
    (hv : v < s.size) :
    ((∃ d, s.dependency v = some d ∧ d ≠ null_dependency) ↔
      s.kind v = some kind_t.assumption) ∧
    (s.kind v = some kind_t.assumption → s.justifying_clause v = some none) := by
  obtain ⟨-, -, hrow⟩ := reachable_inv hr
  simp only [kind, justifying_clause, bool_var_manager.dependency]
  rcases hrow v hv with ⟨-, -, h3, -, h5, h6⟩ |
    ⟨-, k, l, c, d, h3, -, h5, h6, -, -, h9, h10, -⟩
  · simp [h3, h5, h6]
  · rw [h3, h5, h6]
    constructor
    · constructor
      · rintro ⟨d1, hd1, hne⟩
        rw [← Option.some.inj hd1] at hne
        rw [h9.mp hne]
      · intro hk
        exact ⟨d, rfl, h9.mpr (Option.some.inj hk)⟩
    · intro hk
      rw [h10 (Option.some.inj hk)]

/-- C20 at the state scenario C leaves: variable 2 was asserted with dependency 5 and has
kind `assumption`; variable 3 was asserted without dependency and has kind
`decision`. -/
theorem C20_dependency_kind_witness :
    Reachable state_C ∧ 2 < state_C.size ∧
    state_C.dependency 2 = some (some 5) ∧ state_C.kind 2 = some kind_t.assumption ∧
    state_C.dependency 3 = some none ∧ state_C.kind 3 = some kind_t.decision ∧
    (state_C.kind 2 = some kind_t.assumption → state_C.justifying_clause 2 = some none) :=
  ⟨⟨scenario_C, [0, 1, 2, 3], by decide!⟩, by decide!, by decide!, by decide!, by decide!,
    by decide!,
    (C20_dependency_kind state_C ⟨scenario_C, [0, 1, 2, 3], by decide!⟩ 2 (by decide!)).2⟩

end polysat
